import Mathlib

/-!
Verification development for the AudioMoth deployment-completeness analyzer
(`scripts/data-validation/data-report.py`).

The Python source is shallowly embedded below:
* timestamps are modelled as integer seconds on the proleptic Gregorian
  calendar (`toSecs`), matching `datetime` subtraction and `date()` grouping;
* real arithmetic (`total_seconds()/86400`, `np.median`, percentages) is
  modelled over `ℚ`;
* `datetime.strptime` with format `%Y%m%d_%H%M%S` is modelled including the
  CPython `_strptime` regex alternations and their backtracking order, with
  `\d` restricted to ASCII digits;
* Python dicts keyed by dates are modelled as association lists built in
  insertion order; missing dict keys are modelled as `Option`/`Except` values.
-/

set_option maxRecDepth 2000

namespace DataReport

/-- A parsed capture instant: the six fields decoded from a filename. -/
structure DateTime where
  year : Nat
  month : Nat
  day : Nat
  hour : Nat
  minute : Nat
  second : Nat
deriving DecidableEq

/-- Numeric value of an ASCII digit character. -/
def charVal (c : Char) : Nat := c.toNat - 48

/-- Does `pat` occur at the head of `l`? (scanning step of `str.replace`). -/
def startsWith : List Char → List Char → Bool
  | [], _ => true
  | _ :: _, [] => false
  | p :: ps, c :: cs => p == c && startsWith ps cs

/-- Fuelled worker for `pyReplace`; the fuel only serves structural
termination and is irrelevant as soon as it bounds the list length. -/
def pyReplaceAux : Nat → List Char → List Char → List Char → List Char
  | 0, l, _, _ => l
  | _ + 1, l, [], _ => l
  | _ + 1, [], _ :: _, _ => []
  | fuel + 1, c :: rest, p :: ps, rep =>
    if startsWith (p :: ps) (c :: rest) then
      rep ++ pyReplaceAux fuel (rest.drop ps.length) (p :: ps) rep
    else
      c :: pyReplaceAux fuel rest (p :: ps) rep

/-- Python `str.replace(pat, rep)`: replace every non-overlapping occurrence,
scanning left to right.  (Only used with non-empty patterns; the empty-pattern
case of Python is not reproduced.) -/
def pyReplace (l pat rep : List Char) : List Char :=
  pyReplaceAux l.length l pat rep

/-- Regex group `(?P<Y>\d\d\d\d)` of CPython `_strptime`. -/
def y4 (a b c d : Char) : Option Nat :=
  if a.isDigit ∧ b.isDigit ∧ c.isDigit ∧ d.isDigit then
    some (1000 * charVal a + 100 * charVal b + 10 * charVal c + charVal d)
  else none

/-- Two-digit alternatives `1[0-2]|0[1-9]` of the month group. -/
def m2 (a b : Char) : Option Nat :=
  if a = '1' ∧ '0' ≤ b ∧ b ≤ '2' then some (10 + charVal b)
  else if a = '0' ∧ '1' ≤ b ∧ b ≤ '9' then some (charVal b)
  else none

/-- One-digit alternative `[1-9]` of the month group. -/
def m1 (a : Char) : Option Nat :=
  if '1' ≤ a ∧ a ≤ '9' then some (charVal a) else none

/-- Two-digit alternatives `3[01]|[12]\d|0[1-9]` of the day group. -/
def d2 (a b : Char) : Option Nat :=
  if a = '3' ∧ '0' ≤ b ∧ b ≤ '1' then some (30 + charVal b)
  else if ('1' ≤ a ∧ a ≤ '2') ∧ b.isDigit then some (10 * charVal a + charVal b)
  else if a = '0' ∧ '1' ≤ b ∧ b ≤ '9' then some (charVal b)
  else none

/-- One-digit alternative `[1-9]` of the day group. -/
def d1 (a : Char) : Option Nat :=
  if '1' ≤ a ∧ a ≤ '9' then some (charVal a) else none

/-- Two-digit alternatives `2[0-3]|[0-1]\d` of the hour group. -/
def h2 (a b : Char) : Option Nat :=
  if a = '2' ∧ '0' ≤ b ∧ b ≤ '3' then some (20 + charVal b)
  else if ('0' ≤ a ∧ a ≤ '1') ∧ b.isDigit then some (10 * charVal a + charVal b)
  else none

/-- One-digit alternative `\d` of the hour group. -/
def h1 (a : Char) : Option Nat :=
  if a.isDigit then some (charVal a) else none

/-- Two-digit alternative `[0-5]\d` of the minute group. -/
def mi2 (a b : Char) : Option Nat :=
  if ('0' ≤ a ∧ a ≤ '5') ∧ b.isDigit then some (10 * charVal a + charVal b)
  else none

/-- One-digit alternative `\d` of the minute group. -/
def mi1 (a : Char) : Option Nat :=
  if a.isDigit then some (charVal a) else none

/-- Two-digit alternatives `6[0-1]|[0-5]\d` of the second group. -/
def s2 (a b : Char) : Option Nat :=
  if a = '6' ∧ '0' ≤ b ∧ b ≤ '1' then some (60 + charVal b)
  else if ('0' ≤ a ∧ a ≤ '5') ∧ b.isDigit then some (10 * charVal a + charVal b)
  else none

/-- One-digit alternative `\d` of the second group. -/
def s1 (a : Char) : Option Nat :=
  if a.isDigit then some (charVal a) else none

/-- Consume the four-digit year group. -/
def grabY : List Char → Option (Nat × List Char)
  | a :: b :: c :: d :: r => (y4 a b c d).map (fun v => (v, r))
  | _ => none

/-- Consume a two-character group alternative. -/
def grab2 (f : Char → Char → Option Nat) : List Char → Option (Nat × List Char)
  | a :: b :: r => (f a b).map (fun v => (v, r))
  | _ => none

/-- Consume a one-character group alternative. -/
def grab1 (f : Char → Option Nat) : List Char → Option (Nat × List Char)
  | a :: r => (f a).map (fun v => (v, r))
  | _ => none

/-- Consume a group using its two-digit alternatives when `len = 2`, its
one-digit alternative otherwise. -/
def grabField (two : Char → Char → Option Nat) (one : Char → Option Nat)
    (len : Nat) : List Char → Option (Nat × List Char) :=
  if len = 2 then grab2 two else grab1 one

/-- Try one choice of per-group alternative widths; on success return the six
decoded fields together with the unconsumed remainder of the string (CPython
`re.match` does not anchor the end; leftover input is checked afterwards). -/
def tryDecomp (cs : List Char) (lm ld lh lmin lsec : Nat) :
    Option (DateTime × List Char) := do
  let (y, r1) ← grabY cs
  let (mo, r2) ← grabField m2 m1 lm r1
  let (dy, r3) ← grabField d2 d1 ld r2
  match r3 with
  | '_' :: r4 => do
    let (hr, r5) ← grabField h2 h1 lh r4
    let (mi, r6) ← grabField mi2 mi1 lmin r5
    let (sec, r7) ← grabField s2 s1 lsec r6
    pure (⟨y, mo, dy, hr, mi, sec⟩, r7)
  | _ => none

/-- The 32 width choices in the order CPython regex backtracking explores
them: earlier groups dominate, and each group tries its two-digit
alternatives before its one-digit alternative. -/
def decompOrder : List (Nat × Nat × Nat × Nat × Nat) :=
  [2, 1].flatMap fun lm =>
    [2, 1].flatMap fun ld =>
      [2, 1].flatMap fun lh =>
        [2, 1].flatMap fun lmin =>
          [2, 1].map fun lsec => (lm, ld, lh, lmin, lsec)

/-- Leap year test of the Gregorian calendar. -/
def isLeap (y : Nat) : Bool := y % 4 == 0 && (y % 100 != 0 || y % 400 == 0)

/-- Number of days in month `m` of year `y`. -/
def daysInMonth (y m : Nat) : Nat :=
  if m = 2 then (if isLeap y then 29 else 28)
  else if m = 4 ∨ m = 6 ∨ m = 9 ∨ m = 11 then 30 else 31

/-- The validation performed by the `datetime` constructor (the regex already
bounds month, hour and minute, but permits leap seconds and day overflow). -/
def validDatetime (dt : DateTime) : Bool :=
  decide (1 ≤ dt.year ∧ dt.year ≤ 9999 ∧
    1 ≤ dt.month ∧ dt.month ≤ 12 ∧
    1 ≤ dt.day ∧ dt.day ≤ daysInMonth dt.year dt.month ∧
    dt.hour ≤ 23 ∧ dt.minute ≤ 59 ∧ dt.second ≤ 59)

/-- `datetime.strptime(s, "%Y%m%d_%H%M%S")`, returning `none` where Python
raises: the first width choice completing the pattern wins, then the match
must have consumed the whole string, then the constructor validates. -/
def strptimeYmdHMS (cs : List Char) : Option DateTime :=
  match decompOrder.findSome?
      (fun t => tryDecomp cs t.1 t.2.1 t.2.2.1 t.2.2.2.1 t.2.2.2.2) with
  | none => none
  | some (dt, rest) =>
    if rest = [] then (if validDatetime dt then some dt else none) else none

/-- `parse_audiomoth_filename` from the source: delete every `".WAV"` then
every `".wav"` substring, run `strptime`, reject years before 2024, and
collapse every failure to `none`. -/
def parse_audiomoth_filename (filename : String) : Option DateTime :=
  let base := pyReplace (pyReplace filename.toList (String.toList ".WAV") [])
    (String.toList ".wav") []
  match strptimeYmdHMS base with
  | none => none
  | some dt => if dt.year < 2024 then none else some dt

/-- Days before January 1 of the months preceding `m` in year `y`. -/
def daysBeforeMonth (y m : Nat) : Nat :=
  ((List.range (m - 1)).map (fun i => daysInMonth y (i + 1))).sum

/-- `date.toordinal()`: day number of `y-m-d` with January 1 of year 1 as 1. -/
def toOrdinal (y m d : Nat) : Nat :=
  365 * (y - 1) + (y - 1) / 4 + (y - 1) / 400 - (y - 1) / 100 +
    daysBeforeMonth y m + d

/-- A capture instant as a second count; differences of these agree with
`datetime` subtraction and `t.fdiv 86400` recovers `datetime.date()`. -/
def toSecs (dt : DateTime) : Int :=
  (toOrdinal dt.year dt.month dt.day : Int) * 86400 +
    dt.hour * 3600 + dt.minute * 60 + dt.second

/-- Calendar date of a timestamp, as its ordinal day number. -/
def dateOf (t : Int) : Int := t.fdiv 86400

/-- Lexicographic strict order on code-point sequences, as Python compares
strings. -/
def charListLt : List Char → List Char → Bool
  | [], [] => false
  | [], _ :: _ => true
  | _ :: _, [] => false
  | a :: as, b :: bs =>
    if a < b then true else if b < a then false else charListLt as bs

/-- Python string `<=`, via code-point comparison. -/
def strLe (a b : String) : Bool := !(charListLt b.toList a.toList)

/-- Does `s` end with `suffix`? (case-sensitive, as `pathlib` matching). -/
def strEndsWith (s suffix : String) : Bool :=
  startsWith suffix.toList.reverse s.toList.reverse

/-- A physical deployment folder: its directory name and the names of the
files it contains. -/
structure Folder where
  name : String
  files : List String
deriving DecidableEq

/-- `site_path.glob("*.WAV") + site_path.glob("*.wav")` (pathlib matching is
case-sensitive and does not skip dot-files). -/
def globWav (f : Folder) : List String :=
  f.files.filter (fun n => strEndsWith n ".WAV") ++
    f.files.filter (fun n => strEndsWith n ".wav")

/-- The timestamps parsed from one folder, in file order. -/
def folderEvents (f : Folder) : List Int :=
  (globWav f).filterMap (fun n => (parse_audiomoth_filename n).map toSecs)

/-- The number of files of one folder whose names fail to parse. -/
def folderInvalid (f : Folder) : Nat :=
  ((globWav f).filter (fun n => (parse_audiomoth_filename n).isNone)).length

/-- The characters before the first `-` of a name. -/
def takeUntilDash : List Char → List Char
  | [] => []
  | c :: rest => if c = '-' then [] else c :: takeUntilDash rest

/-- Canonical site name: the part of a folder name before the first `-`
(`site_name.split("-")[0]`; a name without `-` is its own canonical name). -/
def baseName (s : String) : String := String.mk (takeUntilDash s.toList)

/-- `sorted(site_paths)`: deployment folders sorted by path name. -/
def sortFolders (l : List Folder) : List Folder :=
  l.insertionSort (fun a b => strLe a.name b.name = true)

/-- `find_gaps` from the source: for every adjacent pair of timestamps whose
distance exceeds `maxGapMinutes` minutes, emit the pair with the distance in
hours. -/
def find_gaps (timestamps : List Int) (maxGapMinutes : ℚ) :
    List (Int × Int × ℚ) :=
  match timestamps with
  | a :: b :: rest =>
    (if ((b - a : Int) : ℚ) / 60 > maxGapMinutes then
      [(a, b, ((b - a : Int) : ℚ) / 3600)] else []) ++
      find_gaps (b :: rest) maxGapMinutes
  | _ => []

/-- Add one event on date `d` to a date-count association list, incrementing
the existing entry or appending a fresh one (Python dict insertion order). -/
def bumpDate (d : Int) : List (Int × Nat) → List (Int × Nat)
  | [] => [(d, 1)]
  | (k, v) :: rest =>
    if k = d then (k, v + 1) :: rest else (k, v) :: bumpDate d rest

/-- `daily_counts`: events per calendar date, built by one pass over the
timestamps. -/
def dailyCounts (ts : List Int) : List (Int × Nat) :=
  ts.foldl (fun m t => bumpDate (dateOf t) m) []

/-- `dict.get(d, 0)` on a date-count association list. -/
def getCount : List (Int × Nat) → Int → Nat
  | [], _ => 0
  | (k, v) :: rest, d => if k = d then v else getCount rest d

/-- `np.median` of a list of numbers: `none` models the NaN produced for an
empty input, which Python only ever feeds to `int(...)`, raising there. -/
def npMedian (l : List ℚ) : Option ℚ :=
  match l with
  | [] => none
  | _ =>
    let s := l.insertionSort (· ≤ ·)
    some (if l.length % 2 = 1 then s.getD (l.length / 2) 0
      else (s.getD (l.length / 2 - 1) 0 + s.getD (l.length / 2) 0) / 2)

/-- Python `int(...)` on a rational: truncation toward zero. -/
def pyInt (q : ℚ) : Int := if 0 ≤ q then ⌊q⌋ else ⌈q⌉

/-- The per-site analysis record.  The three `Option` fields model dictionary
keys that the empty-site branch of `analyze_merged_site` omits. -/
structure SiteResult where
  site : String
  deployment_folders : List String
  n_folders : Nat
  n_files : Nat
  invalid_files : Nat
  first_recording : Option Int
  last_recording : Option Int
  duration_days : ℚ
  actual_recordings : Nat
  expected_recordings : Option Int
  completeness_pct : Option ℚ
  median_daily_recordings : Option ℚ
  timestamps : List Int
  gaps : List (Int × Int × ℚ)
  daily_counts : List (Int × Nat)
deriving DecidableEq

/-- The timestamp collection loop of `analyze_merged_site`: all events of
all deployment folders of one site, folders visited in sorted order. -/
def collectedEvents (site_paths : List Folder) : List Int :=
  ((sortFolders site_paths).map folderEvents).flatten

/-- `all_timestamps.sort()`: the collected events in chronological order. -/
def sortedEvents (site_paths : List Folder) : List Int :=
  (collectedEvents site_paths).insertionSort (· ≤ ·)

/-- `duration_days`: elapsed time between first and last event, in days. -/
def siteDuration (site_paths : List Folder) : ℚ :=
  (((sortedEvents site_paths).getLastD 0 -
    (sortedEvents site_paths).headD 0 : Int) : ℚ) / 86400

/-- `median_daily`: `np.median` of the daily counts (the dict is non-empty
whenever this is used, so the `else 0` guard of the source reduces to the
`getD 0` default). -/
def siteMedian (site_paths : List Folder) : ℚ :=
  (npMedian ((dailyCounts (sortedEvents site_paths)).map
    (fun p => (p.2 : ℚ)))).getD 0

/-- `expected_total`: the floored median-based baseline, falling back to the
event count itself when the median daily rate is not positive. -/
def siteExpected (site_paths : List Folder) : Int :=
  if 0 < siteMedian site_paths then
    pyInt (siteMedian site_paths * siteDuration site_paths)
  else ((sortedEvents site_paths).length : Int)

/-- `completeness_pct`: actual over expected as a percentage, 100 when the
expected total is not positive. -/
def siteCompleteness (site_paths : List Folder) : ℚ :=
  if 0 < siteExpected site_paths then
    ((sortedEvents site_paths).length : ℚ) /
      ((siteExpected site_paths : Int) : ℚ) * 100
  else 100

/-- `analyze_merged_site` from the source (the `recording_interval_sec`
parameter is unused there and omitted). -/
def analyze_merged_site (site_paths : List Folder) : SiteResult :=
  let base_site_name := baseName ((site_paths.headD ⟨"", []⟩).name)
  let total_files := (site_paths.map (fun f => (globWav f).length)).sum
  let invalid := (site_paths.map folderInvalid).sum
  if collectedEvents site_paths = [] then
    { site := base_site_name
      deployment_folders := site_paths.map Folder.name
      n_folders := site_paths.length
      n_files := total_files
      invalid_files := invalid
      first_recording := none
      last_recording := none
      duration_days := 0
      actual_recordings := 0
      expected_recordings := none
      completeness_pct := none
      median_daily_recordings := none
      timestamps := []
      gaps := []
      daily_counts := [] }
  else
    { site := base_site_name
      deployment_folders := site_paths.map Folder.name
      n_folders := site_paths.length
      n_files := total_files
      invalid_files := invalid
      first_recording := some ((sortedEvents site_paths).headD 0)
      last_recording := some ((sortedEvents site_paths).getLastD 0)
      duration_days := siteDuration site_paths
      actual_recordings := (sortedEvents site_paths).length
      expected_recordings := some (siteExpected site_paths)
      completeness_pct := some (siteCompleteness site_paths)
      median_daily_recordings := some (siteMedian site_paths)
      timestamps := sortedEvents site_paths
      gaps := find_gaps (sortedEvents site_paths) 10
      daily_counts := dailyCounts (sortedEvents site_paths) }

/-- Insert a folder into its group of a keyed group list, appending a new
group for an unseen key (defaultdict insertion order). -/
def addToGroup : List (String × List Folder) → String → Folder →
    List (String × List Folder)
  | [], k, f => [(k, [f])]
  | (k0, fs) :: rest, k, f =>
    if k0 = k then (k0, fs ++ [f]) :: rest
    else (k0, fs) :: addToGroup rest k f

/-- `merge_continuous_deployments`: group folders by canonical site name. -/
def merge_continuous_deployments (site_dirs : List Folder) :
    List (String × List Folder) :=
  site_dirs.foldl (fun acc f => addToGroup acc (baseName f.name) f) []

/-- The dense site-by-date table: the sorted date axis plus one labelled
count row per site result. -/
structure HeatmapDF where
  dates : List Int
  rows : List (String × List Nat)
deriving DecidableEq

/-- `create_daily_heatmap_data` from the source: union of all observed dates
as a sorted axis, then one row per site result with `.get(d, 0)` cells; on an
empty date union it returns an entirely empty frame. -/
def create_daily_heatmap_data (site_results : List SiteResult) : HeatmapDF :=
  let all_dates := ((site_results.map
    (fun r => r.daily_counts.map Prod.fst)).flatten).dedup
  if all_dates = [] then ⟨[], []⟩
  else
    let ds := all_dates.insertionSort (· ≤ ·)
    ⟨ds, site_results.map
      (fun r => (r.site, ds.map (fun d => getCount r.daily_counts d)))⟩

instance {ε α : Type} [DecidableEq ε] [DecidableEq α] :
    DecidableEq (Except ε α) := fun a b =>
  match a, b with
  | Except.ok x, Except.ok y =>
    if h : x = y then isTrue (by rw [h])
    else isFalse (fun hc => by cases hc; exact h rfl)
  | Except.ok _, Except.error _ => isFalse (fun hc => by cases hc)
  | Except.error _, Except.ok _ => isFalse (fun hc => by cases hc)
  | Except.error e, Except.error f =>
    if h : e = f then isTrue (by rw [h])
    else isFalse (fun hc => by cases hc; exact h rfl)

/-- The completeness string of the per-site report line: `True` means the
site is displayed as `N/A` instead of a percentage.  Reading the missing
`completeness_pct` key of an empty site raises `KeyError`. -/
def printFlag (r : SiteResult) : Except String Bool :=
  match r.completeness_pct with
  | none => Except.error "KeyError: completeness_pct"
  | some p => Except.ok (if 0 < p then false else true)

/-- One row of the site summary table (display rounding via `round(..., 2)`
is not modelled; values are kept exact). -/
structure SummaryRow where
  site : String
  total_files : Nat
  invalid_files : Nat
  valid_recordings : Nat
  expected_recordings : Int
  completeness_pct : ℚ
  median_daily_int : Int
  duration_days : ℚ
  n_gaps : Nat
deriving DecidableEq

/-- Building a summary row reads the three dictionary keys that an
empty-site result lacks, raising `KeyError` on such a result. -/
def siteRow (r : SiteResult) : Except String SummaryRow :=
  match r.expected_recordings with
  | none => Except.error "KeyError: expected_recordings"
  | some e =>
    match r.completeness_pct with
    | none => Except.error "KeyError: completeness_pct"
    | some c =>
      match r.median_daily_recordings with
      | none => Except.error "KeyError: median_daily_recordings"
      | some m =>
        Except.ok ⟨r.site, r.n_files, r.invalid_files, r.actual_recordings,
          e, c, pyInt m, r.duration_days, r.gaps.length⟩

/-- The global statistics block of `analyze_all_sites`. -/
structure GlobalStats where
  global_first : Int
  global_last : Int
  global_duration : ℚ
  total_recordings : Nat
  global_expected : Int
  global_completeness : ℚ
deriving DecidableEq

/-- Reading `r["median_daily_recordings"]`, which raises `KeyError` on an
empty site's zeroed result. -/
def medianKey (r : SiteResult) : Except String ℚ :=
  match r.median_daily_recordings with
  | none => Except.error "KeyError: median_daily_recordings"
  | some m => Except.ok m

/-- `all_timestamps` of the global block: the union of all sites' event
sequences. -/
def globalAllTs (site_results : List SiteResult) : List Int :=
  (site_results.map SiteResult.timestamps).flatten

/-- The chronologically sorted union of all events. -/
def globalSorted (site_results : List SiteResult) : List Int :=
  (globalAllTs site_results).insertionSort (· ≤ ·)

/-- `global_duration`: elapsed days between the first and last event of the
whole run. -/
def globalDuration (site_results : List SiteResult) : ℚ :=
  (((globalSorted site_results).getLastD 0 -
    (globalSorted site_results).headD 0 : Int) : ℚ) / 86400

/-- The global-summary computation: skipped entirely when there are no
timestamps; otherwise it reads every site's `median_daily_recordings` key
(raising `KeyError` for an empty site), filters the positive rates, and
feeds their median into `int(...)` (raising `ValueError` on the NaN median
of an empty list). -/
def globalStats (nSites : Nat) (site_results : List SiteResult) :
    Except String (Option GlobalStats) :=
  if globalAllTs site_results = [] then Except.ok none
  else
    match site_results.mapM medianKey with
    | Except.error e => Except.error e
    | Except.ok medians =>
      match npMedian (medians.filter (fun m => decide (0 < m))) with
      | none => Except.error "ValueError: cannot convert float NaN to integer"
      | some gm =>
        Except.ok (some ⟨(globalSorted site_results).headD 0,
          (globalSorted site_results).getLastD 0,
          globalDuration site_results,
          (globalAllTs site_results).length,
          pyInt (gm * globalDuration site_results * (nSites : ℚ)),
          if 0 < pyInt (gm * globalDuration site_results * (nSites : ℚ)) then
            ((globalAllTs site_results).length : ℚ) /
              ((pyInt (gm * globalDuration site_results *
                (nSites : ℚ)) : Int) : ℚ) * 100
          else 0⟩)


/-- The core of `analyze_all_sites` (directory scanning, printing and file
output aside): merge folders into sites, analyze each site in sorted key
order, render the per-site report line and the summary row for every result,
then compute the global statistics.  The first missing dictionary key aborts
the run with its `KeyError`. -/
def analyze_all_sites_core (site_dirs : List Folder) :
    Except String (List SiteResult × Option GlobalStats) := do
  let merged := (merge_continuous_deployments site_dirs).insertionSort
    (fun a b => strLe a.1 b.1 = true)
  let site_results := merged.map (fun p => analyze_merged_site p.2)
  let _ ← site_results.mapM printFlag
  let _ ← site_results.mapM siteRow
  let g ← globalStats merged.length site_results
  pure (site_results, g)

/-- Render a number as two zero-padded decimal digits. -/
def pad2 (n : Nat) : List Char := [Nat.digitChar (n / 10), Nat.digitChar (n % 10)]

/-- Render a number as four zero-padded decimal digits. -/
def pad4 (n : Nat) : List Char :=
  [Nat.digitChar (n / 1000), Nat.digitChar (n / 100 % 10),
    Nat.digitChar (n / 10 % 10), Nat.digitChar (n % 10)]

/-- The canonical `YYYYMMDD_HHMMSS` stem of an AudioMoth filename. -/
def fmtName (y mo dy hr mi sec : Nat) : List Char :=
  pad4 y ++ pad2 mo ++ pad2 dy ++ '_' :: (pad2 hr ++ pad2 mi ++ pad2 sec)

/-- A one-file deployment folder (all events at one instant). -/
def folderSingle : Folder := ⟨"A1", ["20250601_060000.WAV"]⟩

/-- A folder whose events beat the floored median-based baseline. -/
def folderOver : Folder :=
  ⟨"A2", ["20250601_000000.WAV", "20250601_120000.WAV",
    "20250601_230000.WAV", "20250602_000000.WAV"]⟩

/-- A deployment folder containing no audio files at all. -/
def folderEmptyA1 : Folder := ⟨"A3", []⟩

/-- Another empty deployment folder, for the degenerate global baseline. -/
def folderEmptyC6 : Folder := ⟨"A4", []⟩

/-- A third empty deployment folder, for the empty heatmap corner. -/
def folderEmptyC7 : Folder := ⟨"A5", []⟩

/-- First deployment folder of site `L5`. -/
def folderL5 : Folder := ⟨"L5", ["20250601_060000.WAV", "20250601_060100.WAV"]⟩

/-- Continuation folder `L5-2` of the same site. -/
def folderL5cont : Folder := ⟨"L5-2", ["20250601_070000.WAV"]⟩

/-- A two-day, one-event-per-day deployment folder. -/
def folderTwoDays : Folder := ⟨"A6", ["20250601_000000.WAV", "20250603_000000.WAV"]⟩

/-- Site `B1`: one event a day for two days. -/
def folderB1 : Folder := ⟨"B1", ["20250601_060000.WAV", "20250602_060000.WAV"]⟩

/-- Site `B2`: a single event. -/
def folderB2 : Folder := ⟨"B2", ["20250601_070000.WAV"]⟩

/-- Site `H1`: one event on June 1. -/
def folderH1 : Folder := ⟨"H1", ["20250601_060000.WAV"]⟩

/-- Site `H2`: one event on June 2. -/
def folderH2 : Folder := ⟨"H2", ["20250602_060000.WAV"]⟩

/-- The global statistics of the run over `folderB1` and `folderB2`. -/
def globalB : GlobalStats :=
  ⟨toSecs ⟨2025, 6, 1, 6, 0, 0⟩, toSecs ⟨2025, 6, 2, 6, 0, 0⟩, 1, 3, 2, 150⟩

theorem find_gaps_eq_filterMap (tol : ℚ) :
    ∀ ts : List Int, find_gaps ts tol =
      (ts.zip ts.tail).filterMap (fun p =>
        if ((p.2 : ℚ) - (p.1 : ℚ)) / 60 > tol then
          some (p.1, p.2, ((p.2 : ℚ) - (p.1 : ℚ)) / 3600) else none)
  | [] => rfl
  | [_] => rfl
  | a :: b :: rest => by
    have ih := find_gaps_eq_filterMap tol (b :: rest)
    by_cases hc : tol < ((b : ℚ) - (a : ℚ)) / 60 <;>
      simp [find_gaps, List.filterMap_cons, ih, hc]

theorem fst_mem_of_mem_find_gaps {ts : List Int} {tol : ℚ}
    {g : Int × Int × ℚ} (hg : g ∈ find_gaps ts tol) : g.1 ∈ ts := by
  rw [find_gaps_eq_filterMap] at hg
  rcases List.mem_filterMap.mp hg with ⟨p, hp, hfp⟩
  rcases p with ⟨x, y⟩
  have h1 : x ∈ ts := (List.of_mem_zip hp).1
  by_cases hc : ((y : ℚ) - (x : ℚ)) / 60 > tol
  · rw [if_pos hc] at hfp
    cases hfp
    exact h1
  · rw [if_neg hc] at hfp
    cases hfp

theorem find_gaps_sorted (tol : ℚ) :
    ∀ ts : List Int, ts.Pairwise (· ≤ ·) →
      (find_gaps ts tol).Pairwise (fun g1 g2 => g1.1 ≤ g2.1)
  | [] => fun _ => List.Pairwise.nil
  | [_] => fun _ => List.Pairwise.nil
  | a :: b :: rest => by
    intro hs
    have htail : (b :: rest).Pairwise (· ≤ ·) := hs.of_cons
    have hhead : ∀ y ∈ b :: rest, a ≤ y := fun y hy =>
      List.rel_of_pairwise_cons hs hy
    have ih := find_gaps_sorted tol (b :: rest) htail
    show ((if _ then _ else _) ++ find_gaps (b :: rest) tol).Pairwise _
    rw [List.pairwise_append]
    refine ⟨?_, ih, ?_⟩
    · split <;> simp
    · intro x hx y hy
      have hy1 : y.1 ∈ b :: rest := fst_mem_of_mem_find_gaps hy
      have hx1 : x.1 = a := by
        by_cases hc : ((b - a : Int) : ℚ) / 60 > tol
        · rw [if_pos hc] at hx
          rcases List.mem_singleton.mp hx with rfl
          rfl
        · rw [if_neg hc] at hx
          cases hx
      rw [hx1]
      exact hhead _ hy1

/-- C3: for a chronologically sorted timestamp sequence and a tolerance in
minutes, `find_gaps` emits exactly one gap (start, end, duration in hours)
per adjacent pair whose elapsed time strictly exceeds the tolerance, in
chronological order; its length is the number of such pairs, and a sequence
with at most one event yields no gaps. -/
theorem find_gaps_spec (ts : List Int) (tol : ℚ)
    (hs : ts.Pairwise (· ≤ ·)) :
    find_gaps ts tol =
      (ts.zip ts.tail).filterMap (fun p =>
        if ((p.2 : ℚ) - (p.1 : ℚ)) / 60 > tol then
          some (p.1, p.2, ((p.2 : ℚ) - (p.1 : ℚ)) / 3600) else none) ∧
    (find_gaps ts tol).length =
      ((ts.zip ts.tail).filter (fun p =>
        decide (((p.2 : ℚ) - (p.1 : ℚ)) / 60 > tol))).length ∧
    (ts.length ≤ 1 → find_gaps ts tol = []) ∧
    (find_gaps ts tol).Pairwise (fun g1 g2 => g1.1 ≤ g2.1) := by
  refine ⟨find_gaps_eq_filterMap tol ts, ?_, ?_, find_gaps_sorted tol ts hs⟩
  · rw [find_gaps_eq_filterMap]
    induction ts.zip ts.tail with
    | nil => rfl
    | cons p l ih =>
      by_cases hc : tol < ((p.2 : ℚ) - (p.1 : ℚ)) / 60 <;>
        simp [List.filterMap_cons, List.filter_cons, hc, ih]
  · intro hlen
    match ts, hlen with
    | [], _ => rfl
    | [_], _ => rfl

theorem find_gaps_spec_witness :
    ([0, 60, 5000] : List Int).Pairwise (· ≤ ·) ∧
    find_gaps [0, 60, 5000] 10 = [(60, 5000, 247 / 180)] ∧
    (find_gaps [0, 60, 5000] 10).length =
      ((([0, 60, 5000] : List Int).zip ([0, 60, 5000] : List Int).tail).filter
        (fun p => decide (((p.2 : ℚ) - (p.1 : ℚ)) / 60 > 10))).length :=
  ⟨by decide, by with_unfolding_all decide,
    (find_gaps_spec [0, 60, 5000] 10 (by decide)).2.1⟩

theorem parse_partition (l : List String) :
    (l.filterMap (fun n => (parse_audiomoth_filename n).map toSecs)).length +
      (l.filter (fun n => (parse_audiomoth_filename n).isNone)).length =
      l.length := by
  induction l with
  | nil => rfl
  | cons n l ih =>
    cases hp : parse_audiomoth_filename n <;>
      simp [List.filterMap_cons, List.filter_cons, hp, ← ih] <;> omega

theorem folder_partition (f : Folder) :
    (folderEvents f).length + folderInvalid f = (globWav f).length :=
  parse_partition (globWav f)

theorem sum_map_add (g : List Folder) (f1 f2 : Folder → Nat) :
    (g.map (fun f => f1 f + f2 f)).sum = (g.map f1).sum + (g.map f2).sum := by
  induction g with
  | nil => rfl
  | cons a g ih => simp [ih]; omega

theorem collectedEvents_length (g : List Folder) :
    (g.map (fun f => (globWav f).length)).sum =
      (collectedEvents g).length + (g.map folderInvalid).sum := by
  have hperm : List.Perm (sortFolders g) g := List.perm_insertionSort _ g
  have h1 : (collectedEvents g).length =
      ((sortFolders g).map (fun f => (folderEvents f).length)).sum := by
    rw [collectedEvents, List.length_flatten, List.map_map]
    rfl
  have h2 : ((sortFolders g).map (fun f => (folderEvents f).length)).sum =
      (g.map (fun f => (folderEvents f).length)).sum :=
    (hperm.map _).sum_eq
  have h3 : ∀ f : Folder, (globWav f).length =
      (folderEvents f).length + folderInvalid f :=
    fun f => (folder_partition f).symm
  calc (g.map (fun f => (globWav f).length)).sum
      = (g.map (fun f => (folderEvents f).length + folderInvalid f)).sum := by
        simp only [h3]
    _ = (g.map (fun f => (folderEvents f).length)).sum +
        (g.map folderInvalid).sum := sum_map_add g _ _
    _ = (collectedEvents g).length + (g.map folderInvalid).sum := by
        rw [h1, h2]

/-- C9: for every site analysis result, the scanned file count splits
exactly into valid recordings plus invalid files:
`n_files = actual_recordings + invalid_files`. -/
theorem n_files_partition (g : List Folder) :
    (analyze_merged_site g).n_files =
      (analyze_merged_site g).actual_recordings +
        (analyze_merged_site g).invalid_files := by
  by_cases hc : collectedEvents g = []
  · have h0 : (collectedEvents g).length = 0 := by rw [hc]; rfl
    have := collectedEvents_length g
    simp [analyze_merged_site, hc]
    omega
  · have h1 := collectedEvents_length g
    have h2 : (sortedEvents g).length = (collectedEvents g).length :=
      List.length_insertionSort _ _
    simp [analyze_merged_site, hc]
    omega

/-- C10: the completeness percentage is not capped at 100: on `folderOver`
the baseline is 2 with 4 actual events, so the reported completeness is
200 % while the expected total is positive. -/
theorem completeness_exceeds_100 :
    (analyze_merged_site [folderOver]).expected_recordings = some 2 ∧
    (analyze_merged_site [folderOver]).actual_recordings = 4 ∧
    (analyze_merged_site [folderOver]).completeness_pct = some 200 ∧
    (0 : Int) < 2 ∧ (100 : ℚ) < 200 := by
  with_unfolding_all decide

/-- C4: the claim fails on the code: a site with zero valid events does get
a zeroed result with no gap rows and the run is supposed to carry on, but
the zeroed dictionary omits `completeness_pct` (and the other estimator
keys), so the per-site report line of `analyze_all_sites` raises `KeyError`
and the run aborts instead of completing. -/
theorem empty_site_keyerror :
    (analyze_merged_site [folderEmptyA1]).n_files = 0 ∧
    (analyze_merged_site [folderEmptyA1]).actual_recordings = 0 ∧
    (analyze_merged_site [folderEmptyA1]).invalid_files = 0 ∧
    (analyze_merged_site [folderEmptyA1]).gaps = [] ∧
    (analyze_merged_site [folderEmptyA1]).completeness_pct = none ∧
    printFlag (analyze_merged_site [folderEmptyA1]) =
      Except.error "KeyError: completeness_pct" ∧
    siteRow (analyze_merged_site [folderEmptyA1]) =
      Except.error "KeyError: expected_recordings" ∧
    analyze_all_sites_core [folderEmptyA1] =
      Except.error "KeyError: completeness_pct" := by
  with_unfolding_all decide

theorem getCount_bumpDate (d x : Int) (m : List (Int × Nat)) :
    getCount (bumpDate d m) x = getCount m x + (if d = x then 1 else 0) := by
  induction m with
  | nil =>
    simp only [bumpDate, getCount]
    by_cases hdx : d = x
    · rw [if_pos hdx]
    · rw [if_neg hdx]
  | cons p m ih =>
    rcases p with ⟨k, v⟩
    simp only [bumpDate]
    by_cases hkd : k = d
    · rw [if_pos hkd]
      simp only [getCount]
      by_cases hkx : k = x
      · rw [if_pos hkx, if_pos hkx, if_pos (hkd.symm.trans hkx)]
      · rw [if_neg hkx, if_neg hkx,
          if_neg (fun h : d = x => hkx (hkd.trans h))]
        omega
    · rw [if_neg hkd]
      simp only [getCount]
      by_cases hkx : k = x
      · rw [if_pos hkx, if_pos hkx,
          if_neg (fun h : d = x => hkd (hkx.trans h.symm))]
        omega
      · rw [if_neg hkx, if_neg hkx, ih]

theorem getCount_foldl (ts : List Int) :
    ∀ (acc : List (Int × Nat)) (x : Int),
      getCount (ts.foldl (fun m t => bumpDate (dateOf t) m) acc) x =
        getCount acc x + ts.countP (fun t => decide (dateOf t = x)) := by
  induction ts with
  | nil => simp
  | cons t ts ih =>
    intro acc x
    simp only [List.foldl_cons, List.countP_cons, ih, getCount_bumpDate]
    by_cases hx : dateOf t = x <;> simp [hx]
    omega

theorem getCount_dailyCounts (ts : List Int) (x : Int) :
    getCount (dailyCounts ts) x = ts.countP (fun t => decide (dateOf t = x)) := by
  simpa [getCount] using getCount_foldl ts [] x

theorem sumVals_bumpDate (d : Int) (m : List (Int × Nat)) :
    ((bumpDate d m).map Prod.snd).sum = (m.map Prod.snd).sum + 1 := by
  induction m with
  | nil => rfl
  | cons p m ih =>
    rcases p with ⟨k, v⟩
    by_cases hkd : k = d <;> simp [bumpDate, hkd, ih] <;> omega

theorem sumVals_foldl (ts : List Int) :
    ∀ acc : List (Int × Nat),
      (((ts.foldl (fun m t => bumpDate (dateOf t) m) acc)).map Prod.snd).sum =
        (acc.map Prod.snd).sum + ts.length := by
  induction ts with
  | nil => simp
  | cons t ts ih =>
    intro acc
    simp only [List.foldl_cons, List.length_cons, ih, sumVals_bumpDate]
    omega

theorem sumVals_dailyCounts (ts : List Int) :
    ((dailyCounts ts).map Prod.snd).sum = ts.length := by
  simpa using sumVals_foldl ts []

theorem vals_pos_bumpDate (d : Int) (m : List (Int × Nat))
    (h : ∀ v ∈ m.map Prod.snd, 1 ≤ v) :
    ∀ v ∈ (bumpDate d m).map Prod.snd, 1 ≤ v := by
  induction m with
  | nil =>
    simp [bumpDate]
  | cons p m ih =>
    rcases p with ⟨k, v0⟩
    have hhead : 1 ≤ v0 := h v0 (by simp)
    have htail : ∀ v ∈ m.map Prod.snd, 1 ≤ v := by
      intro v hv
      exact h v (by simp only [List.map_cons, List.mem_cons]; exact Or.inr hv)
    by_cases hkd : k = d
    · simp only [bumpDate, if_pos hkd]
      intro v hv
      simp only [List.map_cons, List.mem_cons] at hv
      rcases hv with rfl | hv
      · omega
      · exact htail v hv
    · simp only [bumpDate, if_neg hkd]
      intro v hv
      simp only [List.map_cons, List.mem_cons] at hv
      rcases hv with rfl | hv
      · exact hhead
      · exact ih htail v hv

theorem vals_pos_foldl (ts : List Int) :
    ∀ acc : List (Int × Nat), (∀ v ∈ acc.map Prod.snd, 1 ≤ v) →
      ∀ v ∈ ((ts.foldl (fun m t => bumpDate (dateOf t) m) acc)).map Prod.snd,
        1 ≤ v := by
  induction ts with
  | nil => exact fun acc h => h
  | cons t ts ih =>
    intro acc hacc
    exact ih _ (vals_pos_bumpDate _ _ hacc)

theorem dailyCounts_vals_pos (ts : List Int) :
    ∀ v ∈ (dailyCounts ts).map Prod.snd, 1 ≤ v :=
  vals_pos_foldl ts [] (by simp)

theorem bumpDate_ne_nil (d : Int) (m : List (Int × Nat)) :
    bumpDate d m ≠ [] := by
  cases m with
  | nil => simp [bumpDate]
  | cons p m =>
    rcases p with ⟨k, v⟩
    by_cases hkd : k = d <;> simp [bumpDate, hkd]

theorem foldl_bump_ne_nil (ts : List Int) :
    ∀ acc : List (Int × Nat), acc ≠ [] →
      ts.foldl (fun m t => bumpDate (dateOf t) m) acc ≠ [] := by
  induction ts with
  | nil => exact fun acc h => h
  | cons t ts ih => exact fun acc _ => ih _ (bumpDate_ne_nil _ _)

theorem dailyCounts_ne_nil (ts : List Int) (h : ts ≠ []) :
    dailyCounts ts ≠ [] := by
  cases ts with
  | nil => exact absurd rfl h
  | cons t ts =>
    exact foldl_bump_ne_nil ts _ (bumpDate_ne_nil _ _)

theorem mem_keys_bumpDate (d x : Int) (m : List (Int × Nat)) :
    x ∈ (bumpDate d m).map Prod.fst ↔ x = d ∨ x ∈ m.map Prod.fst := by
  induction m with
  | nil => simp [bumpDate]
  | cons p m ih =>
    rcases p with ⟨k, v⟩
    by_cases hkd : k = d <;> simp [bumpDate, hkd, ih]
    tauto

theorem mem_keys_foldl (ts : List Int) :
    ∀ (acc : List (Int × Nat)) (x : Int),
      x ∈ ((ts.foldl (fun m t => bumpDate (dateOf t) m) acc)).map Prod.fst ↔
        x ∈ acc.map Prod.fst ∨ ∃ t ∈ ts, dateOf t = x := by
  induction ts with
  | nil => simp
  | cons t ts ih =>
    intro acc x
    simp only [List.foldl_cons, ih, mem_keys_bumpDate, List.mem_cons]
    constructor
    · rintro ((rfl | h) | h)
      · exact Or.inr ⟨t, Or.inl rfl, rfl⟩
      · exact Or.inl h
      · rcases h with ⟨u, hu, hx⟩
        exact Or.inr ⟨u, Or.inr hu, hx⟩
    · rintro (h | ⟨u, (rfl | hu), hx⟩)
      · exact Or.inl (Or.inr h)
      · exact Or.inl (Or.inl hx.symm)
      · exact Or.inr ⟨u, hu, hx⟩

theorem mem_keys_dailyCounts (ts : List Int) (x : Int) :
    x ∈ (dailyCounts ts).map Prod.fst ↔ ∃ t ∈ ts, dateOf t = x := by
  simpa using mem_keys_foldl ts [] x

theorem npMedian_lower (l : List ℚ) (b : ℚ) (hne : l ≠ [])
    (h : ∀ x ∈ l, b ≤ x) : ∃ m, npMedian l = some m ∧ b ≤ m := by
  obtain ⟨a, l2, rfl⟩ := List.exists_cons_of_ne_nil hne
  set s := (a :: l2).insertionSort (· ≤ ·) with hs
  have hlen : s.length = (a :: l2).length := List.length_insertionSort _ _
  have hmem : ∀ x ∈ s, b ≤ x := fun x hx =>
    h x ((List.mem_insertionSort _).mp hx)
  have hpos : 0 < (a :: l2).length := by simp
  have hgetD : ∀ i, i < s.length → b ≤ s.getD i 0 := by
    intro i hi
    rw [List.getD_eq_getElem s 0 hi]
    exact hmem _ (List.getElem_mem hi)
  have hlt : (a :: l2).length / 2 < s.length := by
    rw [hlen, List.length_cons]
    omega
  have hlt1 : (a :: l2).length / 2 - 1 < s.length := by
    rw [hlen, List.length_cons]
    omega
  refine ⟨_, rfl, ?_⟩
  by_cases hodd : (a :: l2).length % 2 = 1
  · rw [if_pos hodd]
    exact hgetD _ hlt
  · rw [if_neg hodd]
    have h1 : b ≤ s.getD ((a :: l2).length / 2 - 1) 0 := hgetD _ hlt1
    have h2 : b ≤ s.getD ((a :: l2).length / 2) 0 := hgetD _ hlt
    linarith

theorem npMedian_all_eq (l : List ℚ) (r : ℚ) (hne : l ≠ [])
    (h : ∀ x ∈ l, x = r) : npMedian l = some r := by
  obtain ⟨a, l2, rfl⟩ := List.exists_cons_of_ne_nil hne
  set s := (a :: l2).insertionSort (· ≤ ·) with hs
  have hlen : s.length = (a :: l2).length := List.length_insertionSort _ _
  have hmem : ∀ x ∈ s, x = r := fun x hx =>
    h x ((List.mem_insertionSort _).mp hx)
  have hgetD : ∀ i, i < s.length → s.getD i 0 = r := by
    intro i hi
    rw [List.getD_eq_getElem s 0 hi]
    exact hmem _ (List.getElem_mem hi)
  have hlt : (a :: l2).length / 2 < s.length := by
    rw [hlen, List.length_cons]
    omega
  have hlt1 : (a :: l2).length / 2 - 1 < s.length := by
    rw [hlen, List.length_cons]
    omega
  show some _ = some r
  congr 1
  by_cases hodd : (a :: l2).length % 2 = 1
  · rw [if_pos hodd]
    exact hgetD _ hlt
  · rw [if_neg hodd]
    rw [hgetD _ hlt1, hgetD _ hlt]
    ring

theorem analyze_fields_ne (g : List Folder)
    (hne : ¬ collectedEvents g = []) :
    (analyze_merged_site g).median_daily_recordings = some (siteMedian g) ∧
    (analyze_merged_site g).expected_recordings = some (siteExpected g) ∧
    (analyze_merged_site g).completeness_pct = some (siteCompleteness g) ∧
    (analyze_merged_site g).duration_days = siteDuration g ∧
    (analyze_merged_site g).actual_recordings = (sortedEvents g).length ∧
    (analyze_merged_site g).timestamps = sortedEvents g ∧
    (analyze_merged_site g).daily_counts = dailyCounts (sortedEvents g) ∧
    (analyze_merged_site g).gaps = find_gaps (sortedEvents g) 10 := by
  simp [analyze_merged_site, hne]

theorem sortedEvents_perm (g : List Folder) :
    List.Perm (sortedEvents g) (collectedEvents g) :=
  List.perm_insertionSort _ _

theorem sortedEvents_sorted (g : List Folder) :
    (sortedEvents g).Pairwise (· ≤ ·) :=
  List.sorted_insertionSort _ _

theorem sortedEvents_ne_nil (g : List Folder)
    (hne : collectedEvents g ≠ []) : sortedEvents g ≠ [] := by
  intro h0
  have hlen : (sortedEvents g).length = (collectedEvents g).length :=
    List.length_insertionSort _ _
  rw [h0] at hlen
  exact hne (List.eq_nil_of_length_eq_zero hlen.symm)

theorem actual_ne_collected_ne (g : List Folder)
    (hc : (analyze_merged_site g).actual_recordings ≠ 0) :
    collectedEvents g ≠ [] := by
  intro h0
  apply hc
  simp [analyze_merged_site, h0]

theorem sorted_headD_le_getLastD :
    ∀ (l : List Int) (x : Int), (x :: l).Pairwise (· ≤ ·) →
      x ≤ (x :: l).getLastD 0
  | [], x, _ => le_refl x
  | y :: l, x, h => by
    have h1 : x ≤ y := List.rel_of_pairwise_cons h (List.mem_cons_self y l)
    have h2 : y ≤ (y :: l).getLastD 0 :=
      sorted_headD_le_getLastD l y h.of_cons
    have h3 : (x :: y :: l).getLastD 0 = (y :: l).getLastD 0 := by
      rw [List.getLastD_eq_getLast?, List.getLastD_eq_getLast?,
        List.getLast?_cons_cons]
    rw [h3]
    exact h1.trans h2

theorem siteDuration_nonneg (g : List Folder)
    (hne : collectedEvents g ≠ []) : 0 ≤ siteDuration g := by
  obtain ⟨x, l, hxl⟩ := List.exists_cons_of_ne_nil (sortedEvents_ne_nil g hne)
  have hsorted := sortedEvents_sorted g
  rw [hxl] at hsorted
  have h1 : (sortedEvents g).headD 0 ≤ (sortedEvents g).getLastD 0 := by
    rw [hxl]
    exact sorted_headD_le_getLastD l x hsorted
  have h2 : (0 : ℚ) ≤ (((sortedEvents g).getLastD 0 -
      (sortedEvents g).headD 0 : Int) : ℚ) := by
    have := sub_nonneg.mpr h1
    exact_mod_cast this
  rw [siteDuration]
  positivity

theorem siteMedian_spec (g : List Folder)
    (hne : collectedEvents g ≠ []) :
    npMedian ((dailyCounts (sortedEvents g)).map (fun p => (p.2 : ℚ))) =
      some (siteMedian g) ∧ 1 ≤ siteMedian g := by
  have hts : sortedEvents g ≠ [] := sortedEvents_ne_nil g hne
  have hdc : dailyCounts (sortedEvents g) ≠ [] := dailyCounts_ne_nil _ hts
  have hvals : ∀ x ∈ (dailyCounts (sortedEvents g)).map
      (fun p => (p.2 : ℚ)), (1 : ℚ) ≤ x := by
    intro x hx
    rcases List.mem_map.mp hx with ⟨p, hp, rfl⟩
    have : 1 ≤ p.2 := dailyCounts_vals_pos _ _ (List.mem_map_of_mem _ hp)
    exact_mod_cast this
  have hmapne : (dailyCounts (sortedEvents g)).map
      (fun p => (p.2 : ℚ)) ≠ [] := by
    simpa using hdc
  obtain ⟨m, hm, hm1⟩ := npMedian_lower _ 1 hmapne hvals
  have : siteMedian g = m := by rw [siteMedian, hm]; rfl
  rw [this]
  exact ⟨hm, hm1⟩

theorem siteExpected_floor (g : List Folder)
    (hne : collectedEvents g ≠ []) :
    siteExpected g = ⌊siteMedian g * siteDuration g⌋ ∧
      0 ≤ ⌊siteMedian g * siteDuration g⌋ := by
  have hm1 : 1 ≤ siteMedian g := (siteMedian_spec g hne).2
  have hd0 : 0 ≤ siteDuration g := siteDuration_nonneg g hne
  have hprod : 0 ≤ siteMedian g * siteDuration g :=
    mul_nonneg (by linarith) hd0
  constructor
  · rw [siteExpected, if_pos (by linarith : 0 < siteMedian g), pyInt,
      if_pos hprod]
  · exact Int.floor_nonneg.mpr hprod

theorem siteCompleteness_pos (g : List Folder)
    (hne : collectedEvents g ≠ []) : 0 < siteCompleteness g := by
  rw [siteCompleteness]
  by_cases he : 0 < siteExpected g
  · rw [if_pos he]
    have hlen : 0 < (sortedEvents g).length :=
      List.length_pos.mpr (sortedEvents_ne_nil g hne)
    have h1 : (0 : ℚ) < ((sortedEvents g).length : ℚ) := by exact_mod_cast hlen
    have h2 : (0 : ℚ) < ((siteExpected g : Int) : ℚ) := by exact_mod_cast he
    positivity
  · rw [if_neg he]
    norm_num

/-- C1 (amended): for every site with at least one valid event the baseline
is `floor(median of the non-zero daily counts x duration-in-days)` (all daily
counts are non-zero, so the restriction is vacuous), the baseline is >= 0,
and the completeness percentage is actual/expected x 100 when the baseline
is positive and 100 when the baseline is 0; in that degenerate case no
not-applicable marker is raised: the N/A display flag fires only on a
completeness <= 0, which never happens for a site with events. -/
theorem expected_baseline_spec (g : List Folder)
    (hc : (analyze_merged_site g).actual_recordings ≠ 0) :
    ∃ m : ℚ,
      (analyze_merged_site g).median_daily_recordings = some m ∧
      npMedian (((((analyze_merged_site g).daily_counts.map Prod.snd).filter
        (fun v => v ≠ 0))).map (fun v : Nat => (v : ℚ))) = some m ∧
      0 < m ∧
      (analyze_merged_site g).expected_recordings =
        some ⌊m * (analyze_merged_site g).duration_days⌋ ∧
      0 ≤ ⌊m * (analyze_merged_site g).duration_days⌋ ∧
      (analyze_merged_site g).completeness_pct =
        some (if 0 < ⌊m * (analyze_merged_site g).duration_days⌋ then
          ((analyze_merged_site g).actual_recordings : ℚ) /
            ((⌊m * (analyze_merged_site g).duration_days⌋ : Int) : ℚ) * 100
        else 100) ∧
      printFlag (analyze_merged_site g) = Except.ok false := by
  have hne : collectedEvents g ≠ [] := actual_ne_collected_ne g hc
  obtain ⟨hmed, hexp, hcomp, hdur, hact, hts, hdc, hgaps⟩ :=
    analyze_fields_ne g hne
  obtain ⟨hm, hm1⟩ := siteMedian_spec g hne
  obtain ⟨hfl, hfl0⟩ := siteExpected_floor g hne
  have hfilter : ((dailyCounts (sortedEvents g)).map Prod.snd).filter
      (fun v => v ≠ 0) = (dailyCounts (sortedEvents g)).map Prod.snd := by
    apply List.filter_eq_self.mpr
    intro v hv
    have := dailyCounts_vals_pos _ _ hv
    simpa using (by omega : v ≠ 0)
  refine ⟨siteMedian g, hmed, ?_, by linarith, ?_, ?_, ?_, ?_⟩
  · rw [hdc, hfilter, List.map_map]
    exact hm
  · rw [hexp, hdur, hfl]
  · rw [hdur, ← hfl]
    exact hfl ▸ hfl0
  · rw [hcomp, hdur, hact, siteCompleteness, hfl]
  · simp only [printFlag, hcomp]
    rw [if_pos (siteCompleteness_pos g hne)]

theorem expected_baseline_spec_witness :
    (analyze_merged_site [folderSingle]).actual_recordings = 1 ∧
    (∃ m : ℚ,
      (analyze_merged_site [folderSingle]).median_daily_recordings = some m ∧
      npMedian (((((analyze_merged_site
        [folderSingle]).daily_counts.map Prod.snd).filter
        (fun v => v ≠ 0))).map (fun v : Nat => (v : ℚ))) = some m ∧
      0 < m ∧
      (analyze_merged_site [folderSingle]).expected_recordings =
        some ⌊m * (analyze_merged_site [folderSingle]).duration_days⌋ ∧
      0 ≤ ⌊m * (analyze_merged_site [folderSingle]).duration_days⌋ ∧
      (analyze_merged_site [folderSingle]).completeness_pct =
        some (if 0 < ⌊m * (analyze_merged_site [folderSingle]).duration_days⌋
        then ((analyze_merged_site [folderSingle]).actual_recordings : ℚ) /
            ((⌊m * (analyze_merged_site
              [folderSingle]).duration_days⌋ : Int) : ℚ) * 100
        else 100) ∧
      printFlag (analyze_merged_site [folderSingle]) = Except.ok false) :=
  ⟨by with_unfolding_all decide,
    expected_baseline_spec [folderSingle] (by with_unfolding_all decide)⟩

/-- C1 counterexample: on a site whose expected total is 0 (a single event,
so zero elapsed duration) the completeness is reported as 100 but the
not-applicable marker is NOT raised: the report line shows the percentage,
contradicting the claim that N/A is flagged separately when the baseline
is 0. -/
theorem na_not_flagged_when_expected_zero :
    (analyze_merged_site [folderSingle]).expected_recordings = some 0 ∧
    (analyze_merged_site [folderSingle]).completeness_pct = some 100 ∧
    (analyze_merged_site [folderSingle]).actual_recordings = 1 ∧
    printFlag (analyze_merged_site [folderSingle]) = Except.ok false := by
  with_unfolding_all decide

theorem sum_const_of_all_eq (l : List Nat) (r : Nat)
    (h : ∀ x ∈ l, x = r) : l.sum = l.length * r := by
  induction l with
  | nil => simp
  | cons a l ih =>
    have ha : a = r := h a (List.mem_cons_self a l)
    have ht : l.sum = l.length * r :=
      ih (fun x hx => h x (List.mem_cons_of_mem a hx))
    simp [ha, ht]
    ring

/-- C8: for a site whose daily counts all equal `R` over `D` observed days,
with a computed deployment duration of exactly `D` whole days, the expected
total is `D x R` and the completeness percentage is exactly 100. -/
theorem uniform_site_100pct (g : List Folder) (R D : Nat)
    (hall : ∀ c ∈ (analyze_merged_site g).daily_counts, c.2 = R)
    (hD : (analyze_merged_site g).daily_counts.length = D)
    (hdur : (analyze_merged_site g).duration_days = (D : ℚ))
    (hD0 : 0 < D) :
    (analyze_merged_site g).expected_recordings =
      some ((D : Int) * (R : Int)) ∧
    (analyze_merged_site g).completeness_pct = some 100 := by
  have hne : collectedEvents g ≠ [] := by
    intro h0
    have hdceq : (analyze_merged_site g).daily_counts = [] := by
      simp [analyze_merged_site, h0]
    rw [hdceq] at hD
    simp at hD
    omega
  obtain ⟨hmed, hexp, hcomp, hdurf, hact, hts, hdc, hgaps⟩ :=
    analyze_fields_ne g hne
  rw [hdc] at hall hD
  have hdcne : dailyCounts (sortedEvents g) ≠ [] := by
    intro h0
    rw [h0] at hD
    simp at hD
    omega
  have hvals_all : ∀ x ∈ (dailyCounts (sortedEvents g)).map
      (fun p => (p.2 : ℚ)), x = (R : ℚ) := by
    intro x hx
    rcases List.mem_map.mp hx with ⟨p, hp, rfl⟩
    rw [hall p hp]
  have hmedR : npMedian ((dailyCounts (sortedEvents g)).map
      (fun p => (p.2 : ℚ))) = some (R : ℚ) :=
    npMedian_all_eq _ _ (by simpa using hdcne) hvals_all
  have hmed_site : siteMedian g = (R : ℚ) := by
    rw [siteMedian, hmedR]
    rfl
  have hR1 : 1 ≤ R := by
    obtain ⟨c, hcmem⟩ := List.exists_mem_of_ne_nil _ hdcne
    have h1 := dailyCounts_vals_pos (sortedEvents g) c.2
      (List.mem_map_of_mem _ hcmem)
    have h2 := hall c hcmem
    omega
  have hdurs : siteDuration g = (D : ℚ) := by rw [← hdur, hdurf]
  have hmpos : (0 : ℚ) < siteMedian g := by
    rw [hmed_site]
    exact_mod_cast hR1
  have hprod : (0 : ℚ) ≤ siteMedian g * siteDuration g := by
    rw [hmed_site, hdurs]
    positivity
  have hflo : siteExpected g = (D : Int) * (R : Int) := by
    rw [siteExpected, if_pos hmpos, pyInt, if_pos hprod, hmed_site, hdurs]
    have hcast : (R : ℚ) * (D : ℚ) = ((R * D : Nat) : ℚ) := by push_cast; ring
    rw [hcast, Int.floor_natCast]
    push_cast
    ring
  have hact_len : (sortedEvents g).length = D * R := by
    have hs := sumVals_dailyCounts (sortedEvents g)
    have hsum : ((dailyCounts (sortedEvents g)).map Prod.snd).sum = D * R := by
      rw [sum_const_of_all_eq _ R (fun x hx => by
        rcases List.mem_map.mp hx with ⟨p, hp, rfl⟩
        exact hall p hp)]
      rw [List.length_map, hD]
    omega
  have hDRpos : (0 : Int) < (D : Int) * (R : Int) := by
    have : 0 < D * R := Nat.mul_pos hD0 hR1
    exact_mod_cast this
  have hcomp100 : siteCompleteness g = 100 := by
    rw [siteCompleteness, hflo, if_pos hDRpos, hact_len]
    have hDQ : (0 : ℚ) < (D : ℚ) := by exact_mod_cast hD0
    have hRQ : (0 : ℚ) < (R : ℚ) := by exact_mod_cast hR1
    push_cast
    field_simp
  exact ⟨by rw [hexp, hflo], by rw [hcomp, hcomp100]⟩

theorem uniform_site_100pct_witness :
    (∀ c ∈ (analyze_merged_site [folderTwoDays]).daily_counts, c.2 = 1) ∧
    (analyze_merged_site [folderTwoDays]).daily_counts.length = 2 ∧
    (analyze_merged_site [folderTwoDays]).duration_days = (2 : ℚ) ∧
    ((analyze_merged_site [folderTwoDays]).expected_recordings =
      some ((2 : Int) * (1 : Int)) ∧
    (analyze_merged_site [folderTwoDays]).completeness_pct = some 100) :=
  ⟨by with_unfolding_all decide, by with_unfolding_all decide,
    by with_unfolding_all decide,
    uniform_site_100pct [folderTwoDays] 1 2 (by with_unfolding_all decide)
      (by with_unfolding_all decide) (by with_unfolding_all decide)
      (by decide)⟩

theorem analyze_dc_timestamps (g : List Folder) :
    (analyze_merged_site g).daily_counts =
      dailyCounts ((analyze_merged_site g).timestamps) := by
  by_cases hc : collectedEvents g = [] <;>
    simp [analyze_merged_site, hc, dailyCounts]

/-- C7 (amended): whenever at least one site has an observed date, the
heatmap table has exactly one row per site result and one column per date
in the sorted, duplicate-free union of all observed dates, and the cell of
site `s` at date `d` is the number of `s`-events on `d` (0 where `s` has
none); when no site has any observed date the builder instead returns an
entirely empty table with no rows at all. -/
theorem heatmap_spec (groups : List (List Folder))
    (hne : (create_daily_heatmap_data
      (groups.map analyze_merged_site)).dates ≠ []) :
    (create_daily_heatmap_data (groups.map analyze_merged_site)).rows.length =
      (groups.map analyze_merged_site).length ∧
    (create_daily_heatmap_data
      (groups.map analyze_merged_site)).dates.Pairwise (· ≤ ·) ∧
    (create_daily_heatmap_data (groups.map analyze_merged_site)).dates.Nodup ∧
    (∀ d, d ∈ (create_daily_heatmap_data
        (groups.map analyze_merged_site)).dates ↔
      ∃ r ∈ groups.map analyze_merged_site,
        d ∈ r.daily_counts.map Prod.fst) ∧
    (create_daily_heatmap_data (groups.map analyze_merged_site)).rows =
      (groups.map analyze_merged_site).map (fun r => (r.site,
        (create_daily_heatmap_data (groups.map analyze_merged_site)).dates.map
          (fun d => r.timestamps.countP
            (fun t => decide (dateOf t = d))))) := by
  have hAne : (((groups.map analyze_merged_site).map
      (fun r => r.daily_counts.map Prod.fst)).flatten).dedup ≠ [] := by
    intro h0
    apply hne
    rw [create_daily_heatmap_data, if_pos h0]
  have hH : create_daily_heatmap_data (groups.map analyze_merged_site) =
      ⟨((((groups.map analyze_merged_site).map
          (fun r => r.daily_counts.map Prod.fst)).flatten).dedup).insertionSort
            (· ≤ ·),
        (groups.map analyze_merged_site).map (fun r => (r.site,
          (((((groups.map analyze_merged_site).map
            (fun r => r.daily_counts.map Prod.fst)).flatten).dedup).insertionSort
              (· ≤ ·)).map
            (fun d => getCount r.daily_counts d)))⟩ := by
    rw [create_daily_heatmap_data, if_neg hAne]
  rw [hH]
  refine ⟨by simp, List.sorted_insertionSort _ _, ?_, ?_, ?_⟩
  · exact ((List.perm_insertionSort _ _).nodup_iff).mpr (List.nodup_dedup _)
  · intro d
    simp only [List.mem_insertionSort, List.mem_dedup, List.mem_flatten,
      List.mem_map]
    constructor
    · rintro ⟨l, ⟨r, hr, rfl⟩, hd⟩
      exact ⟨r, hr, List.mem_map.mp hd⟩
    · rintro ⟨r, hr, hd⟩
      exact ⟨r.daily_counts.map Prod.fst, ⟨r, hr, rfl⟩, List.mem_map.mpr hd⟩
  · apply List.map_congr_left
    intro r hr
    rcases List.mem_map.mp hr with ⟨g, hg, rfl⟩
    congr 1
    apply List.map_congr_left
    intro d hd
    rw [analyze_dc_timestamps, getCount_dailyCounts]

/-- C7 counterexample: a list containing one site result with no observed
dates is mapped to a heatmap with zero rows, not one row per site. -/
theorem heatmap_empty_union_drops_rows :
    ([analyze_merged_site [folderEmptyC7]].length = 1) ∧
    (create_daily_heatmap_data
      [analyze_merged_site [folderEmptyC7]]).rows.length = 0 ∧
    (create_daily_heatmap_data [analyze_merged_site [folderEmptyC7]]) =
      ⟨[], []⟩ := by
  decide

theorem heatmap_spec_witness :
    (create_daily_heatmap_data
      ([[folderH1], [folderH2]].map analyze_merged_site)).dates ≠ [] ∧
    (create_daily_heatmap_data
      ([[folderH1], [folderH2]].map analyze_merged_site)).rows.length =
        ([[folderH1], [folderH2]].map analyze_merged_site).length ∧
    create_daily_heatmap_data ([[folderH1], [folderH2]].map
        analyze_merged_site) =
      ⟨[dateOf (toSecs ⟨2025, 6, 1, 6, 0, 0⟩),
        dateOf (toSecs ⟨2025, 6, 2, 6, 0, 0⟩)],
        [("H1", [1, 0]), ("H2", [0, 1])]⟩ :=
  ⟨by decide, (heatmap_spec [[folderH1], [folderH2]] (by decide)).1,
    by decide⟩

theorem addToGroup_keys (k : String) (f : Folder) :
    ∀ acc : List (String × List Folder),
      (addToGroup acc k f).map Prod.fst =
        acc.map Prod.fst ++ (if k ∈ acc.map Prod.fst then [] else [k])
  | [] => by simp [addToGroup]
  | (k0, fs) :: rest => by
    by_cases hk0 : k0 = k
    · subst hk0
      simp [addToGroup]
    · have ih := addToGroup_keys k f rest
      simp only [addToGroup, if_neg hk0, List.map_cons, ih, List.mem_cons]
      have : ¬ k = k0 := fun h => hk0 h.symm
      by_cases hmem : k ∈ rest.map Prod.fst <;> simp [hmem, this]

theorem filter_append_single (processed : List Folder) (f : Folder)
    (key : String) :
    (processed ++ [f]).filter (fun f2 => baseName f2.name == key) =
      processed.filter (fun f2 => baseName f2.name == key) ++
        (if baseName f.name = key then [f] else []) := by
  rw [List.filter_append]
  congr 1
  by_cases hb : baseName f.name = key <;> simp [List.filter_cons, hb]

theorem addToGroup_members (processed : List Folder) (f : Folder) :
    ∀ acc : List (String × List Folder),
      (acc.map Prod.fst).Nodup →
      (∀ p ∈ acc, p.2 = processed.filter
        (fun f2 => baseName f2.name == p.1)) →
      (baseName f.name ∈ acc.map Prod.fst ∨
        processed.filter
          (fun f2 => baseName f2.name == baseName f.name) = []) →
      ∀ p ∈ addToGroup acc (baseName f.name) f,
        p.2 = (processed ++ [f]).filter (fun f2 => baseName f2.name == p.1)
  | [] => by
    intro _ _ hnew p hp
    simp only [addToGroup, List.mem_singleton] at hp
    subst hp
    rcases hnew with hnew | hnew
    · simp at hnew
    · rw [filter_append_single, hnew, if_pos rfl]
      rfl
  | (k0, fs) :: rest => by
    intro hnodup hmem hnew p hp
    by_cases hk0 : k0 = baseName f.name
    · simp only [addToGroup, if_pos hk0] at hp
      rcases List.mem_cons.mp hp with rfl | hp
      · rw [filter_append_single, if_pos hk0.symm,
          ← hmem (k0, fs) (List.mem_cons_self _ _)]
      · have hrest := hmem p (List.mem_cons_of_mem _ hp)
        have hne : p.1 ≠ k0 := by
          intro he
          have hm1 : k0 ∈ rest.map Prod.fst := by
            rw [← he]
            exact List.mem_map_of_mem Prod.fst hp
          simp only [List.map_cons, List.nodup_cons] at hnodup
          exact hnodup.1 hm1
        rw [filter_append_single,
          if_neg (fun h : baseName f.name = p.1 =>
            hne (h.symm.trans hk0.symm)),
          List.append_nil, hrest]
    · simp only [addToGroup, if_neg hk0] at hp
      rcases List.mem_cons.mp hp with rfl | hp
      · have h0 := hmem (k0, fs) (List.mem_cons_self _ _)
        rw [filter_append_single,
          if_neg (fun h : baseName f.name = (k0, fs).1 => hk0 h.symm),
          List.append_nil, h0]
      · have hnodup2 : (rest.map Prod.fst).Nodup := by
          simp only [List.map_cons, List.nodup_cons] at hnodup
          exact hnodup.2
        have hmem2 : ∀ q ∈ rest, q.2 = processed.filter
            (fun f2 => baseName f2.name == q.1) :=
          fun q hq => hmem q (List.mem_cons_of_mem _ hq)
        have hnew2 : baseName f.name ∈ rest.map Prod.fst ∨
            processed.filter
              (fun f2 => baseName f2.name == baseName f.name) = [] := by
          rcases hnew with hnew | hnew
          · simp only [List.map_cons, List.mem_cons] at hnew
            rcases hnew with he | hnew
            · exact absurd he.symm hk0
            · exact Or.inl hnew
          · exact Or.inr hnew
        exact addToGroup_members processed f rest hnodup2 hmem2 hnew2 p hp

theorem merge_foldl_invariant :
    ∀ (dirs : List Folder) (acc : List (String × List Folder))
      (processed : List Folder),
      (acc.map Prod.fst).Nodup →
      (∀ k, k ∈ acc.map Prod.fst ↔
        k ∈ processed.map (fun f => baseName f.name)) →
      (∀ p ∈ acc, p.2 = processed.filter
        (fun f2 => baseName f2.name == p.1)) →
      (((dirs.foldl (fun a f => addToGroup a (baseName f.name) f)
          acc).map Prod.fst).Nodup ∧
        (∀ k, k ∈ (dirs.foldl (fun a f => addToGroup a (baseName f.name) f)
            acc).map Prod.fst ↔
          k ∈ (processed ++ dirs).map (fun f => baseName f.name)) ∧
        (∀ p ∈ dirs.foldl (fun a f => addToGroup a (baseName f.name) f) acc,
          p.2 = (processed ++ dirs).filter
            (fun f2 => baseName f2.name == p.1)))
  | [], acc, processed => by
    intro h1 h2 h3
    simp only [List.foldl_nil, List.append_nil]
    exact ⟨h1, h2, h3⟩
  | f :: dirs, acc, processed => by
    intro h1 h2 h3
    have hkeys := addToGroup_keys (baseName f.name) f acc
    have h1' : ((addToGroup acc (baseName f.name) f).map Prod.fst).Nodup := by
      rw [hkeys]
      by_cases hmem : baseName f.name ∈ acc.map Prod.fst
      · simpa [hmem] using h1
      · rw [if_neg hmem]
        simp [List.nodup_append, h1, hmem]
    have h2' : ∀ k, k ∈ (addToGroup acc (baseName f.name) f).map Prod.fst ↔
        k ∈ (processed ++ [f]).map (fun f2 => baseName f2.name) := by
      intro k
      rw [hkeys, List.mem_append, List.map_append, List.mem_append, h2]
      have hsing : k ∈ [f].map (fun f2 => baseName f2.name) ↔
          k = baseName f.name := by simp
      rw [hsing]
      by_cases hmem : baseName f.name ∈ acc.map Prod.fst
      · rw [if_pos hmem]
        constructor
        · rintro (h | h)
          · exact Or.inl h
          · cases h
        · rintro (h | rfl)
          · exact Or.inl h
          · exact Or.inl ((h2 _).mp hmem)
      · rw [if_neg hmem]
        constructor
        · rintro (h | h)
          · exact Or.inl h
          · exact Or.inr (List.mem_singleton.mp h)
        · rintro (h | rfl)
          · exact Or.inl h
          · exact Or.inr (List.mem_singleton.mpr rfl)
    have h3' : ∀ p ∈ addToGroup acc (baseName f.name) f,
        p.2 = (processed ++ [f]).filter
          (fun f2 => baseName f2.name == p.1) := by
      apply addToGroup_members processed f acc h1 h3
      by_cases hmem : baseName f.name ∈ acc.map Prod.fst
      · exact Or.inl hmem
      · refine Or.inr (List.filter_eq_nil_iff.mpr ?_)
        intro f2 hf2
        have : baseName f2.name ∈ processed.map
            (fun f3 => baseName f3.name) := List.mem_map_of_mem _ hf2
        simp only [beq_iff_eq]
        intro he
        exact hmem ((h2 _).mpr (he ▸ this))
    have hrec := merge_foldl_invariant dirs
      (addToGroup acc (baseName f.name) f) (processed ++ [f]) h1' h2' h3'
    simpa only [List.foldl_cons, List.append_assoc,
      List.singleton_append] using hrec

theorem merge_spec (dirs : List Folder) :
    ((merge_continuous_deployments dirs).map Prod.fst).Nodup ∧
    (∀ k, k ∈ (merge_continuous_deployments dirs).map Prod.fst ↔
      k ∈ dirs.map (fun f => baseName f.name)) ∧
    (∀ p ∈ merge_continuous_deployments dirs,
      p.2 = dirs.filter (fun f2 => baseName f2.name == p.1)) := by
  have := merge_foldl_invariant dirs [] [] (by simp) (by simp) (by simp)
  simpa [merge_continuous_deployments] using this

theorem analyze_timestamps_perm (g : List Folder) :
    List.Perm (analyze_merged_site g).timestamps
      ((g.map folderEvents).flatten) := by
  have h2 : List.Perm (collectedEvents g) ((g.map folderEvents).flatten) :=
    ((List.perm_insertionSort _ g).map folderEvents).flatten
  by_cases hc : collectedEvents g = []
  · rw [hc] at h2
    have h3 : (g.map folderEvents).flatten = [] := h2.symm.eq_nil
    simp [analyze_merged_site, hc, h3]
  · have hts : (analyze_merged_site g).timestamps = sortedEvents g :=
      (analyze_fields_ne g hc).2.2.2.2.2.1
    rw [hts]
    exact (sortedEvents_perm g).trans h2

theorem analyze_timestamps_sorted (g : List Folder) :
    (analyze_merged_site g).timestamps.Pairwise (· ≤ ·) := by
  by_cases hc : collectedEvents g = []
  · simp [analyze_merged_site, hc]
  · have hts : (analyze_merged_site g).timestamps = sortedEvents g :=
      (analyze_fields_ne g hc).2.2.2.2.2.1
    rw [hts]
    exact sortedEvents_sorted g

theorem analyze_gaps_eq (g : List Folder) :
    (analyze_merged_site g).gaps =
      find_gaps (analyze_merged_site g).timestamps 10 := by
  by_cases hc : collectedEvents g = [] <;> simp [analyze_merged_site, hc]
  rfl

/-- C5: folders sharing the name prefix before the first `-` merge into one
group keyed (exactly once) by that prefix, holding exactly those folders in
order; each merged site's event sequence is a chronologically sorted
permutation of the union of all events parsed from all its folders, and gap
analysis runs over that single combined sequence; concretely, `L5` and
`L5-2` become one site `L5` whose gap list has a gap at the folder boundary
because the 59-minute separation exceeds the 10-minute tolerance. -/
theorem merge_and_union (dirs : List Folder) (p : String × List Folder)
    (hp : p ∈ merge_continuous_deployments dirs) (g : List Folder) :
    p.2 = dirs.filter (fun f2 => baseName f2.name == p.1) ∧
    ((merge_continuous_deployments dirs).map Prod.fst).Nodup ∧
    (∀ k, k ∈ (merge_continuous_deployments dirs).map Prod.fst ↔
      k ∈ dirs.map (fun f => baseName f.name)) ∧
    (analyze_merged_site g).timestamps.Pairwise (· ≤ ·) ∧
    List.Perm (analyze_merged_site g).timestamps
      ((g.map folderEvents).flatten) ∧
    (analyze_merged_site g).gaps =
      find_gaps (analyze_merged_site g).timestamps 10 ∧
    merge_continuous_deployments [folderL5, folderL5cont] =
      [("L5", [folderL5, folderL5cont])] ∧
    (analyze_merged_site [folderL5, folderL5cont]).site = "L5" ∧
    (analyze_merged_site [folderL5, folderL5cont]).timestamps =
      [toSecs ⟨2025, 6, 1, 6, 0, 0⟩, toSecs ⟨2025, 6, 1, 6, 1, 0⟩,
        toSecs ⟨2025, 6, 1, 7, 0, 0⟩] ∧
    (analyze_merged_site [folderL5, folderL5cont]).gaps =
      [(toSecs ⟨2025, 6, 1, 6, 1, 0⟩, toSecs ⟨2025, 6, 1, 7, 0, 0⟩,
        59 / 60)] :=
  ⟨(merge_spec dirs).2.2 p hp, (merge_spec dirs).1, (merge_spec dirs).2.1,
    analyze_timestamps_sorted g, analyze_timestamps_perm g,
    analyze_gaps_eq g, by decide, by decide, by decide,
    by with_unfolding_all decide⟩

theorem merge_and_union_witness :
    ("L5", [folderL5, folderL5cont]) ∈
      merge_continuous_deployments [folderL5, folderL5cont] ∧
    [folderL5, folderL5cont].filter
      (fun f2 => baseName f2.name == "L5") = [folderL5, folderL5cont] :=
  ⟨by decide,
    by simpa using (merge_and_union [folderL5, folderL5cont]
      ("L5", [folderL5, folderL5cont]) (by decide) [folderL5, folderL5cont]).1.symm⟩

theorem npMedian_pos (l : List ℚ) (hne : l ≠ [])
    (h : ∀ x ∈ l, 0 < x) : ∃ m, npMedian l = some m ∧ 0 < m := by
  obtain ⟨a, l2, rfl⟩ := List.exists_cons_of_ne_nil hne
  have hlen : ((a :: l2).insertionSort (· ≤ ·)).length = (a :: l2).length :=
    List.length_insertionSort _ _
  have hmem : ∀ x ∈ (a :: l2).insertionSort (· ≤ ·), 0 < x := fun x hx =>
    h x ((List.mem_insertionSort _).mp hx)
  have hgetD : ∀ i, i < ((a :: l2).insertionSort (· ≤ ·)).length →
      0 < ((a :: l2).insertionSort (· ≤ ·)).getD i 0 := by
    intro i hi
    rw [List.getD_eq_getElem _ 0 hi]
    exact hmem _ (List.getElem_mem hi)
  have hlt : (a :: l2).length / 2 < ((a :: l2).insertionSort (· ≤ ·)).length := by
    rw [hlen, List.length_cons]
    omega
  have hlt1 : (a :: l2).length / 2 - 1 <
      ((a :: l2).insertionSort (· ≤ ·)).length := by
    rw [hlen, List.length_cons]
    omega
  refine ⟨_, rfl, ?_⟩
  by_cases hodd : (a :: l2).length % 2 = 1
  · rw [if_pos hodd]
    exact hgetD _ hlt
  · rw [if_neg hodd]
    have h1 := hgetD _ hlt1
    have h2 := hgetD _ hlt
    linarith

theorem mapM_ok_mem {β : Type} (F : SiteResult → Except String β) :
    ∀ (l : List SiteResult) (bs : List β), l.mapM F = Except.ok bs →
      ∀ a ∈ l, ∀ b, F a = Except.ok b → b ∈ bs
  | [], _, _ => by
    intro a ha
    cases ha
  | x :: l, bs, h => by
    intro a ha b hb
    rw [List.mapM_cons] at h
    cases hx : F x with
    | error e =>
      rw [hx] at h
      exact absurd h (fun hcon => Except.noConfusion hcon)
    | ok y =>
      rw [hx] at h
      cases hl : l.mapM F with
      | error e =>
        rw [hl] at h
        exact absurd h (fun hcon => Except.noConfusion hcon)
      | ok ys =>
        rw [hl] at h
        have h2 : Except.ok (ε := String) (y :: ys) = Except.ok bs := h
        have hbs : y :: ys = bs := Except.ok.inj h2
        rcases List.mem_cons.mp ha with rfl | ha2
        · rw [hb] at hx
          have hbe : b = y := Except.ok.inj hx
          rw [← hbs, hbe]
          exact List.mem_cons_self _ _
        · rw [← hbs]
          exact List.mem_cons_of_mem y (mapM_ok_mem F l ys hl a ha2 b hb)

theorem sorted_span_nonneg (l : List Int) (hne : l ≠ []) :
    (0 : ℚ) ≤ (((l.insertionSort (· ≤ ·)).getLastD 0 -
      (l.insertionSort (· ≤ ·)).headD 0 : Int) : ℚ) / 86400 := by
  have hlen : (l.insertionSort (· ≤ ·)).length = l.length :=
    List.length_insertionSort _ _
  have hsne : l.insertionSort (· ≤ ·) ≠ [] := by
    intro h0
    rw [h0] at hlen
    exact hne (List.eq_nil_of_length_eq_zero hlen.symm)
  obtain ⟨x, l2, hxl⟩ := List.exists_cons_of_ne_nil hsne
  have hsorted : (l.insertionSort (· ≤ ·)).Pairwise (· ≤ ·) :=
    List.sorted_insertionSort _ _
  rw [hxl] at hsorted
  have h1 : (l.insertionSort (· ≤ ·)).headD 0 ≤
      (l.insertionSort (· ≤ ·)).getLastD 0 := by
    rw [hxl]
    exact sorted_headD_le_getLastD l2 x hsorted
  have h2 : (0 : ℚ) ≤ (((l.insertionSort (· ≤ ·)).getLastD 0 -
      (l.insertionSort (· ≤ ·)).headD 0 : Int) : ℚ) := by
    have := sub_nonneg.mpr h1
    exact_mod_cast this
  positivity

/-- C6 (amended): whenever the global-statistics block actually produces a
result, the global expected total equals
`floor(median of the positive per-site median daily rates x global elapsed
duration in days x number of logical sites)` — not a sum of per-site
baselines — and the restricted median list is provably non-empty (an
executed global block always has a site with a positive rate, because it
only runs when some timestamp exists); global completeness is
actual/expected x 100 when the expected total is positive and 0 otherwise,
without error.  The claimed no-positive-median recovery does not exist:
that scenario aborts the run with a `KeyError` before the global block
(see the counterexample). -/
theorem global_baseline_spec (groups : List (List Folder)) (g : GlobalStats)
    (h : globalStats groups.length (groups.map analyze_merged_site) =
      Except.ok (some g)) :
    ∃ meds gm,
      (groups.map analyze_merged_site).mapM medianKey = Except.ok meds ∧
      meds.filter (fun m => decide (0 < m)) ≠ [] ∧
      npMedian (meds.filter (fun m => decide (0 < m))) = some gm ∧
      0 < gm ∧ 0 ≤ g.global_duration ∧
      g.global_expected = ⌊gm * g.global_duration * (groups.length : ℚ)⌋ ∧
      (0 < g.global_expected →
        g.global_completeness = (g.total_recordings : ℚ) /
          ((g.global_expected : Int) : ℚ) * 100) ∧
      (¬ 0 < g.global_expected → g.global_completeness = 0) := by
  by_cases hts : globalAllTs (groups.map analyze_merged_site) = []
  · rw [globalStats, if_pos hts] at h
    simp at h
  · rw [globalStats, if_neg hts] at h
    split at h
    · exact absurd h (fun hcon => Except.noConfusion hcon)
    · rename_i meds hm
      split at h
      · exact absurd h (fun hcon => Except.noConfusion hcon)
      · rename_i gm hnp
        have hg : (⟨_, _, _, _, _, _⟩ : GlobalStats) = g :=
          Option.some.inj (Except.ok.inj h)
        obtain ⟨l0, hl0, hl0ne⟩ :
            ∃ l0 ∈ (groups.map analyze_merged_site).map
              SiteResult.timestamps, l0 ≠ [] := by
          by_contra hcon
          push_neg at hcon
          apply hts
          rw [globalAllTs]
          exact List.flatten_eq_nil_iff.mpr hcon
        rcases List.mem_map.mp hl0 with ⟨r, hr, rfl⟩
        rcases List.mem_map.mp hr with ⟨grp, hgrp, rfl⟩
        have hcne : collectedEvents grp ≠ [] := by
          intro h0
          apply hl0ne
          simp [analyze_merged_site, h0]
        have hmedfield := (analyze_fields_ne grp hcne).1
        have hms := (siteMedian_spec grp hcne).2
        have hFk : medianKey (analyze_merged_site grp) =
            Except.ok (siteMedian grp) := by
          rw [medianKey, hmedfield]
        have hmm : siteMedian grp ∈ meds :=
          mapM_ok_mem medianKey _ meds hm _
            (List.mem_map_of_mem analyze_merged_site hgrp) _ hFk
        have hposm : siteMedian grp ∈ meds.filter
            (fun m => decide (0 < m)) :=
          List.mem_filter.mpr ⟨hmm, by simp only [decide_eq_true_eq]; linarith⟩
        have hpne : meds.filter (fun m => decide (0 < m)) ≠ [] :=
          List.ne_nil_of_mem hposm
        have hallpos : ∀ x ∈ meds.filter (fun m => decide (0 < m)), 0 < x :=
          fun x hx => by
            have := (List.mem_filter.mp hx).2
            simpa using this
        obtain ⟨gm2, hgm2, hgm2pos⟩ := npMedian_pos _ hpne hallpos
        have hgm : gm2 = gm := by
          rw [hgm2] at hnp
          exact Option.some.inj hnp
        subst hgm
        have hdur0 : (0 : ℚ) ≤
            globalDuration (groups.map analyze_merged_site) := by
          rw [globalDuration, globalSorted]
          exact sorted_span_nonneg _ hts
        subst hg
        refine ⟨meds, gm2, hm, hpne, hnp, hgm2pos, hdur0, ?_, ?_, ?_⟩
        · show pyInt _ = _
          rw [pyInt, if_pos]
          have hn0 : (0 : ℚ) ≤ (groups.length : ℚ) := by positivity
          exact mul_nonneg (mul_nonneg (le_of_lt hgm2pos) hdur0) hn0
        · intro hpos
          simp only [if_pos hpos]
        · intro hpos
          simp only [if_neg hpos]

/-- C6 counterexample: with one site and no positive median daily rate (an
empty deployment folder), the run does not report a global expected total
of 0 and completeness 0 — it aborts with a `KeyError` while rendering the
per-site report, before the global block is reached. -/
theorem degenerate_global_errors :
    (analyze_merged_site [folderEmptyC6]).median_daily_recordings = none ∧
    analyze_all_sites_core [folderEmptyC6] =
      Except.error "KeyError: completeness_pct" ∧
    globalStats 1 [analyze_merged_site [folderEmptyC6]] =
      Except.ok none := by
  refine ⟨by decide, by with_unfolding_all decide, by decide⟩

theorem global_baseline_spec_witness :
    globalStats 2 ([[folderB1], [folderB2]].map analyze_merged_site) =
      Except.ok (some globalB) ∧
    (∃ meds gm,
      ([[folderB1], [folderB2]].map analyze_merged_site).mapM medianKey =
        Except.ok meds ∧
      meds.filter (fun m => decide (0 < m)) ≠ [] ∧
      npMedian (meds.filter (fun m => decide (0 < m))) = some gm ∧
      0 < gm ∧ 0 ≤ globalB.global_duration ∧
      globalB.global_expected =
        ⌊gm * globalB.global_duration *
          (([[folderB1], [folderB2]] : List (List Folder)).length : ℚ)⌋ ∧
      (0 < globalB.global_expected →
        globalB.global_completeness = (globalB.total_recordings : ℚ) /
          ((globalB.global_expected : Int) : ℚ) * 100) ∧
      (¬ 0 < globalB.global_expected → globalB.global_completeness = 0)) := by
  have hts_val : globalAllTs ([[folderB1], [folderB2]].map
      analyze_merged_site) =
      [toSecs ⟨2025, 6, 1, 6, 0, 0⟩, toSecs ⟨2025, 6, 2, 6, 0, 0⟩,
       toSecs ⟨2025, 6, 1, 7, 0, 0⟩] := by
    decide
  have hsort : globalSorted ([[folderB1], [folderB2]].map
      analyze_merged_site) =
      [toSecs ⟨2025, 6, 1, 6, 0, 0⟩, toSecs ⟨2025, 6, 1, 7, 0, 0⟩,
       toSecs ⟨2025, 6, 2, 6, 0, 0⟩] := by
    decide
  have hdur : globalDuration ([[folderB1], [folderB2]].map
      analyze_merged_site) = 1 := by
    rw [globalDuration, hsort]
    show ((toSecs ⟨2025, 6, 2, 6, 0, 0⟩ -
      toSecs ⟨2025, 6, 1, 6, 0, 0⟩ : Int) : ℚ) / 86400 = 1
    rw [show (toSecs ⟨2025, 6, 2, 6, 0, 0⟩ -
      toSecs ⟨2025, 6, 1, 6, 0, 0⟩ : Int) = 86400 from by decide]
    norm_num
  have hm1 : (analyze_merged_site [folderB1]).median_daily_recordings =
      some 1 := by
    with_unfolding_all decide
  have hm2 : (analyze_merged_site [folderB2]).median_daily_recordings =
      some 1 := by
    with_unfolding_all decide
  have hk1 : medianKey (analyze_merged_site [folderB1]) = Except.ok 1 := by
    simp only [medianKey, hm1]
  have hk2 : medianKey (analyze_merged_site [folderB2]) = Except.ok 1 := by
    simp only [medianKey, hm2]
  have hmapm : ([[folderB1], [folderB2]].map analyze_merged_site).mapM
      medianKey = Except.ok [(1 : ℚ), 1] := by
    simp only [List.map_cons, List.map_nil, List.mapM_cons, List.mapM_nil,
      hk1, hk2]
    rfl
  have hnpv : npMedian (([(1 : ℚ), 1]).filter
      (fun m => decide (0 < m))) = some 1 := by
    with_unfolding_all decide
  have hGB : globalStats 2 ([[folderB1], [folderB2]].map
      analyze_merged_site) = Except.ok (some globalB) := by
    rw [globalStats, if_neg (show ¬ globalAllTs ([[folderB1],
        [folderB2]].map analyze_merged_site) = [] from by
      rw [hts_val]
      exact fun hcon => List.noConfusion hcon)]
    split
    · rename_i e heq
      rw [hmapm] at heq
      exact absurd heq (fun hcon => Except.noConfusion hcon)
    · rename_i medians heq
      rw [hmapm] at heq
      have hmeds : [(1 : ℚ), 1] = medians := Except.ok.inj heq
      subst hmeds
      split
      · rename_i heq2
        rw [hnpv] at heq2
        exact absurd heq2 (fun hcon => Option.noConfusion hcon)
      · rename_i gm heq2
        rw [hnpv] at heq2
        have hgm : (1 : ℚ) = gm := Option.some.inj heq2
        subst hgm
        rw [hsort, hdur, hts_val]
        have eexp : pyInt ((1 : ℚ) * 1 * ((2 : ℕ) : ℚ)) = 2 := by
          rw [pyInt, if_pos (by norm_num)]
          norm_num
        rw [show List.headD [toSecs ⟨2025, 6, 1, 6, 0, 0⟩,
              toSecs ⟨2025, 6, 1, 7, 0, 0⟩,
              toSecs ⟨2025, 6, 2, 6, 0, 0⟩] 0 =
            toSecs ⟨2025, 6, 1, 6, 0, 0⟩ from rfl,
          show List.getLastD [toSecs ⟨2025, 6, 1, 6, 0, 0⟩,
              toSecs ⟨2025, 6, 1, 7, 0, 0⟩,
              toSecs ⟨2025, 6, 2, 6, 0, 0⟩] 0 =
            toSecs ⟨2025, 6, 2, 6, 0, 0⟩ from rfl,
          show List.length [toSecs ⟨2025, 6, 1, 6, 0, 0⟩,
              toSecs ⟨2025, 6, 2, 6, 0, 0⟩,
              toSecs ⟨2025, 6, 1, 7, 0, 0⟩] = 3 from rfl,
          eexp]
        simp only [globalB, Except.ok.injEq, Option.some.injEq,
          GlobalStats.mk.injEq, and_true, true_and]
        rw [if_pos (by norm_num)]
        norm_num
  exact ⟨hGB, global_baseline_spec [[folderB1], [folderB2]] globalB hGB⟩


theorem digitChar_isDigit (k : Nat) (h : k < 10) :
    (Nat.digitChar k).isDigit = true := by
  interval_cases k <;> decide

theorem charVal_digitChar (k : Nat) (h : k < 10) :
    charVal (Nat.digitChar k) = k := by
  interval_cases k <;> decide

theorem digitChar_big (n : Nat) (h : 16 ≤ n) : Nat.digitChar n = '*' := by
  rw [Nat.digitChar]
  repeat rw [if_neg (by omega)]

theorem digitChar_ne_dot (n : Nat) : Nat.digitChar n ≠ '.' := by
  rcases Nat.lt_or_ge n 16 with h | h
  · interval_cases n <;> decide
  · rw [digitChar_big n h]
    decide

theorem daysInMonth_le_31 (y m : Nat) : daysInMonth y m ≤ 31 := by
  rw [daysInMonth]
  split_ifs <;> omega

theorem dot_not_mem_fmt (y mo dy hr mi sec : Nat) :
    '.' ∉ fmtName y mo dy hr mi sec := by
  intro h
  simp only [fmtName, pad4, pad2, List.cons_append, List.nil_append,
    List.mem_cons, List.not_mem_nil, or_false] at h
  have hu : ('.' : Char) ≠ '_' := by decide
  rcases h with h|h|h|h|h|h|h|h|h|h|h|h|h|h|h
  exacts [digitChar_ne_dot _ h.symm, digitChar_ne_dot _ h.symm,
    digitChar_ne_dot _ h.symm, digitChar_ne_dot _ h.symm,
    digitChar_ne_dot _ h.symm, digitChar_ne_dot _ h.symm,
    digitChar_ne_dot _ h.symm, digitChar_ne_dot _ h.symm,
    hu h,
    digitChar_ne_dot _ h.symm, digitChar_ne_dot _ h.symm,
    digitChar_ne_dot _ h.symm, digitChar_ne_dot _ h.symm,
    digitChar_ne_dot _ h.symm, digitChar_ne_dot _ h.symm]

theorem startsWith_append_self : ∀ (ps t : List Char),
    startsWith ps (ps ++ t) = true
  | [], _ => rfl
  | p :: ps, t => by
    simp only [List.cons_append, startsWith, beq_self_eq_true, Bool.true_and]
    exact startsWith_append_self ps t

theorem pyReplaceAux_nil : ∀ (fuel : Nat) (pat rep : List Char),
    pyReplaceAux fuel [] pat rep = []
  | 0, _, _ => rfl
  | _ + 1, [], _ => rfl
  | _ + 1, _ :: _, _ => rfl

theorem pyReplaceAux_no_dot (ps rep : List Char) :
    ∀ (l : List Char) (fuel : Nat), '.' ∉ l →
      pyReplaceAux fuel l ('.' :: ps) rep = l
  | [], fuel, _ => pyReplaceAux_nil fuel _ _
  | c :: rest, fuel, h => by
    cases fuel with
    | zero => rfl
    | succ f =>
      have hne : ('.' : Char) ≠ c := fun he => h (he ▸ List.mem_cons_self _ _)
      have hbe : (('.' : Char) == c) = false := beq_eq_false_iff_ne.mpr hne
      have hrest : '.' ∉ rest := fun hr => h (List.mem_cons_of_mem _ hr)
      simp [pyReplaceAux, startsWith, hbe,
        pyReplaceAux_no_dot ps rep rest f hrest]

theorem pyReplaceAux_strip (ps : List Char) :
    ∀ (l : List Char) (fuel : Nat), '.' ∉ l → l.length + 1 ≤ fuel →
      pyReplaceAux fuel (l ++ '.' :: ps) ('.' :: ps) [] = l
  | [], fuel, _, hf => by
    obtain ⟨f, rfl⟩ : ∃ f, fuel = f + 1 := ⟨fuel - 1, by omega⟩
    have hsw : startsWith ('.' :: ps) ('.' :: ps) = true := by
      have h0 := startsWith_append_self ('.' :: ps) []
      rwa [List.append_nil] at h0
    rw [List.nil_append]
    simp [pyReplaceAux, hsw, List.drop_length, pyReplaceAux_nil]
  | c :: rest, fuel, h, hf => by
    obtain ⟨f, rfl⟩ : ∃ f, fuel = f + 1 := ⟨fuel - 1, by omega⟩
    have hne : ('.' : Char) ≠ c := fun he => h (he ▸ List.mem_cons_self _ _)
    have hbe : (('.' : Char) == c) = false := beq_eq_false_iff_ne.mpr hne
    have hrest : '.' ∉ rest := fun hr => h (List.mem_cons_of_mem _ hr)
    have hf2 : rest.length + 1 ≤ f := by
      simp only [List.length_cons] at hf
      omega
    simp [pyReplaceAux, startsWith, hbe,
      pyReplaceAux_strip ps rest f hrest hf2]

theorem pyReplaceAux_skip :
    ∀ (l : List Char) (fuel : Nat), '.' ∉ l →
      pyReplaceAux fuel (l ++ '.' :: 'w' :: 'a' :: 'v' :: [])
        ('.' :: 'W' :: 'A' :: 'V' :: []) [] =
        l ++ '.' :: 'w' :: 'a' :: 'v' :: []
  | [], fuel, _ => by
    cases fuel with
    | zero => rfl
    | succ f =>
      have hrest := pyReplaceAux_no_dot ('W' :: 'A' :: 'V' :: []) []
        ('w' :: 'a' :: 'v' :: []) f (by decide)
      simp [pyReplaceAux, startsWith, hrest]
  | c :: rest, fuel, h => by
    cases fuel with
    | zero => rfl
    | succ f =>
      have hne : ('.' : Char) ≠ c := fun he => h (he ▸ List.mem_cons_self _ _)
      have hbe : (('.' : Char) == c) = false := beq_eq_false_iff_ne.mpr hne
      have hrest : '.' ∉ rest := fun hr => h (List.mem_cons_of_mem _ hr)
      simp [pyReplaceAux, startsWith, hbe, pyReplaceAux_skip rest f hrest]

theorem pyReplace_no_dot (l ps rep : List Char) (h : '.' ∉ l) :
    pyReplace l ('.' :: ps) rep = l :=
  pyReplaceAux_no_dot ps rep l l.length h

theorem pyReplace_strip (l ps : List Char) (h : '.' ∉ l) :
    pyReplace (l ++ '.' :: ps) ('.' :: ps) [] = l := by
  rw [pyReplace]
  refine pyReplaceAux_strip ps l _ h ?_
  simp [List.length_append]

theorem pyReplace_skip (l : List Char) (h : '.' ∉ l) :
    pyReplace (l ++ '.' :: 'w' :: 'a' :: 'v' :: [])
      ('.' :: 'W' :: 'A' :: 'V' :: []) [] =
      l ++ '.' :: 'w' :: 'a' :: 'v' :: [] :=
  pyReplaceAux_skip l _ h

theorem m2_digits (mo : Nat) (h1 : 1 ≤ mo) (h2 : mo ≤ 12) :
    m2 (Nat.digitChar (mo / 10)) (Nat.digitChar (mo % 10)) = some mo := by
  interval_cases mo <;> decide

theorem d2_digits (dy : Nat) (h1 : 1 ≤ dy) (h2 : dy ≤ 31) :
    d2 (Nat.digitChar (dy / 10)) (Nat.digitChar (dy % 10)) = some dy := by
  interval_cases dy <;> decide

theorem h2_digits (hr : Nat) (hb : hr ≤ 23) :
    h2 (Nat.digitChar (hr / 10)) (Nat.digitChar (hr % 10)) = some hr := by
  interval_cases hr <;> decide

theorem mi2_digits (mi : Nat) (hb : mi ≤ 59) :
    mi2 (Nat.digitChar (mi / 10)) (Nat.digitChar (mi % 10)) = some mi := by
  interval_cases mi <;> decide

theorem s2_digits (sec : Nat) (hb : sec ≤ 59) :
    s2 (Nat.digitChar (sec / 10)) (Nat.digitChar (sec % 10)) = some sec := by
  interval_cases sec <;> decide

theorem y4_digits (y : Nat) (h : y ≤ 9999) :
    y4 (Nat.digitChar (y / 1000)) (Nat.digitChar (y / 100 % 10))
      (Nat.digitChar (y / 10 % 10)) (Nat.digitChar (y % 10)) = some y := by
  rw [y4, if_pos ⟨digitChar_isDigit (y / 1000) (by omega),
    digitChar_isDigit (y / 100 % 10) (by omega),
    digitChar_isDigit (y / 10 % 10) (by omega),
    digitChar_isDigit (y % 10) (by omega)⟩]
  rw [charVal_digitChar (y / 1000) (by omega),
    charVal_digitChar (y / 100 % 10) (by omega),
    charVal_digitChar (y / 10 % 10) (by omega),
    charVal_digitChar (y % 10) (by omega)]
  exact congrArg some (by omega)


/-- C2 (amended): a filename whose stem is canonical `YYYYMMDD_HHMMSS` with
valid calendar fields, year between 2024 and 9999, and whose extension is
exactly `\x22.WAV\x22` or `\x22.wav\x22` (or absent) parses to exactly the
decoded capture instant.  The extension matching is case-sensitive, not
case-insensitive as claimed, and strings outside this shape do not all map
to the invalid signal (see the counterexample). -/
theorem parse_canonical (y mo dy hr mi sec : Nat) (ext : List Char)
    (hext : ext = [] ∨ ext = '.' :: 'W' :: 'A' :: 'V' :: [] ∨
      ext = '.' :: 'w' :: 'a' :: 'v' :: [])
    (hy : 2024 ≤ y) (hy9 : y ≤ 9999) (hmo1 : 1 ≤ mo) (hmo2 : mo ≤ 12)
    (hdy1 : 1 ≤ dy) (hdy2 : dy ≤ daysInMonth y mo) (hhr : hr ≤ 23)
    (hmi : mi ≤ 59) (hsec : sec ≤ 59) :
    parse_audiomoth_filename (String.mk (fmtName y mo dy hr mi sec ++ ext)) =
      some ⟨y, mo, dy, hr, mi, sec⟩ := by
  have hdot := dot_not_mem_fmt y mo dy hr mi sec
  have hbase : pyReplace (pyReplace (fmtName y mo dy hr mi sec ++ ext)
      (String.toList ".WAV") []) (String.toList ".wav") [] =
      fmtName y mo dy hr mi sec := by
    have hWAV : String.toList ".WAV" = '.' :: 'W' :: 'A' :: 'V' :: [] := rfl
    have hwav : String.toList ".wav" = '.' :: 'w' :: 'a' :: 'v' :: [] := rfl
    rcases hext with rfl | rfl | rfl
    · rw [List.append_nil, hWAV, hwav, pyReplace_no_dot _ _ _ hdot,
        pyReplace_no_dot _ _ _ hdot]
    · rw [hWAV, hwav, pyReplace_strip _ _ hdot, pyReplace_no_dot _ _ _ hdot]
    · rw [hWAV, hwav, pyReplace_skip _ hdot, pyReplace_strip _ _ hdot]
  have hdy31 : dy ≤ 31 := le_trans hdy2 (daysInMonth_le_31 y mo)
  have htry : tryDecomp (fmtName y mo dy hr mi sec) 2 2 2 2 2 =
      some (⟨y, mo, dy, hr, mi, sec⟩, []) := by
    show tryDecomp (Nat.digitChar (y / 1000) :: Nat.digitChar (y / 100 % 10) ::
      Nat.digitChar (y / 10 % 10) :: Nat.digitChar (y % 10) ::
      Nat.digitChar (mo / 10) :: Nat.digitChar (mo % 10) ::
      Nat.digitChar (dy / 10) :: Nat.digitChar (dy % 10) :: '_' ::
      Nat.digitChar (hr / 10) :: Nat.digitChar (hr % 10) ::
      Nat.digitChar (mi / 10) :: Nat.digitChar (mi % 10) ::
      Nat.digitChar (sec / 10) :: Nat.digitChar (sec % 10) :: []) 2 2 2 2 2 =
      some (⟨y, mo, dy, hr, mi, sec⟩, [])
    simp [tryDecomp, grabY, grabField, grab2, y4_digits y hy9,
      m2_digits mo hmo1 hmo2, d2_digits dy hdy1 hdy31, h2_digits hr hhr,
      mi2_digits mi hmi, s2_digits sec hsec]
  have hvalid : validDatetime ⟨y, mo, dy, hr, mi, sec⟩ = true := by
    rw [validDatetime]
    refine decide_eq_true ⟨?_, ?_, hmo1, hmo2, hdy1, hdy2, hhr, hmi, hsec⟩
    · show 1 ≤ y
      omega
    · show y ≤ 9999
      omega
  have hfind : List.findSome? (fun t => tryDecomp
      (fmtName y mo dy hr mi sec) t.1 t.2.1 t.2.2.1 t.2.2.2.1 t.2.2.2.2)
      decompOrder = some (⟨y, mo, dy, hr, mi, sec⟩, []) := by
    rw [show decompOrder = ((2, 2, 2, 2, 2) : Nat × Nat × Nat × Nat × Nat) ::
      decompOrder.tail from rfl]
    rw [List.findSome?_cons]
    simp [htry]
  have hstrp : strptimeYmdHMS (fmtName y mo dy hr mi sec) =
      some ⟨y, mo, dy, hr, mi, sec⟩ := by
    simp only [strptimeYmdHMS, hfind]
    simp [hvalid]
  have hTL : (String.mk (fmtName y mo dy hr mi sec ++ ext)).toList =
      fmtName y mo dy hr mi sec ++ ext := rfl
  simp only [parse_audiomoth_filename, hTL, hbase, hstrp]
  rw [if_neg (show ¬ (y < 2024) from by omega)]

theorem parse_canonical_witness :
    (2024 ≤ 2025 ∧ 2025 ≤ 9999 ∧ 1 ≤ 6 ∧ 6 ≤ 12 ∧ 1 ≤ 1 ∧
      1 ≤ daysInMonth 2025 6 ∧ 6 ≤ 23 ∧ 0 ≤ 59) ∧
    parse_audiomoth_filename (String.mk (fmtName 2025 6 1 6 0 0 ++
      ('.' :: 'W' :: 'A' :: 'V' :: []))) = some ⟨2025, 6, 1, 6, 0, 0⟩ :=
  ⟨by decide, parse_canonical 2025 6 1 6 0 0 ('.' :: 'W' :: 'A' :: 'V' :: [])
    (Or.inr (Or.inl rfl)) (by decide) (by decide) (by decide) (by decide)
    (by decide) (by decide) (by decide) (by decide) (by decide)⟩

/-- C2 counterexample: the extension matching is case-sensitive, so the
recognized extension in mixed letter case (`.Wav`) makes an otherwise
canonical filename parse to the invalid signal; and not every
non-conforming string is rejected: `2025123_0000` is not of the shape
`YYYYMMDD_HHMMSS` yet decodes (by regex backtracking into one-digit day,
minute and second fields) to 2025-12-03 00:00:00. -/
theorem parse_case_and_width_quirks :
    parse_audiomoth_filename "20250601_060000.Wav" = none ∧
    parse_audiomoth_filename "2025123_0000" = some ⟨2025, 12, 3, 0, 0, 0⟩ := by
  exact ⟨by decide, by decide⟩

end DataReport
